import Mathlib

/-!
# Verification of the sawbuck/syzygy ASAN shadow memory and stack-capture cache

This development embeds the shadow-memory layer (`Shadow`, `ShadowWalker`) and
the stack-capture cache (`StackCaptureCache`, `CachePage`) of the repository.
The repository's checkout contains the two header files (shadow.h and
stack_capture_cache.h); the marker table, constants and interface contracts are
taken from those headers, while the bodies of the member functions are modelled
from the specification's description of each operation.

Addresses and sizes are natural numbers of bytes; the shadow is one byte of
metadata per granule of `kShadowRatio = 8` bytes, represented as a function
from granule index to marker byte.
-/

namespace Asan

/-- kShadowRatio from constants.h: one shadow byte per 8 application bytes. -/
def kShadowRatio : Nat := 8

/-- From shadow.h: the first 64k of the memory are not addressable. -/
def kAddressLowerBound : Nat := 0x10000

/-- From shadow.h: one shadow byte per group of 8 bytes in a 2G address space. -/
def kShadowSize : Nat := 2 ^ (31 - 3)

/-- From shadow.h: the upper bound of the addressable memory. -/
def kAddressUpperBound : Nat := kShadowSize * kShadowRatio

/-! ## The shadow marker table (shadow.h, enum ShadowMarker) -/

/-- Marker 0x00: either unknown range or an explicitly accessible allocated byte. -/
def kHeapAddressableByte : Nat := 0x00

/-- Marker 0xe0: any byte with this mask set is completely inaccessible. -/
def kHeapNonAccessibleByteMask : Nat := 0xe0

/-- Marker 0xe8: first of the eight block-start markers; the trailing 3 bits of a
block-start marker encode metadata about the block. -/
def kHeapBlockStartByte0 : Nat := 0xe8

/-- Marker 0xf1: the data in this block maps to internal memory structures. -/
def kAsanMemoryByte : Nat := 0xf1

/-- Marker 0xf2: invalid addresses, never accessible to user code. -/
def kInvalidAddress : Nat := 0xf2

/-- Marker 0xf3: allocated but subsequently redzoned via the runtime API. -/
def kUserRedzone : Nat := 0xf3

/-- Marker 0xf4: marks the end of a block, part of a right redzone. -/
def kHeapBlockEndByte : Nat := 0xf4

/-- Marker 0xfa: part of a left redzone (block header padding). -/
def kHeapLeftRedzone : Nat := 0xfa

/-- Marker 0xfb: part of a right redzone (block trailer and padding). -/
def kHeapRightRedzone : Nat := 0xfb

/-- Marker 0xfc: reserved from the OS but not yet handed out. -/
def kAsanReservedByte : Nat := 0xfc

/-- Marker 0xfd: body of a block that has been allocated and subsequently freed. -/
def kHeapFreedByte : Nat := 0xfd

/-- The shadow memory: one marker byte per granule index. -/
def Shadow : Type := Nat → Nat

/-- Application memory: one byte value per address. -/
def Mem : Type := Nat → Nat

/-- The freshly reset shadow: every granule is fully accessible (0x00). -/
def resetShadow : Shadow := fun _ => kHeapAddressableByte

/-- Write marker `v` to `count` consecutive shadow bytes starting at granule
`index` (the `memset` over the shadow array used by the poisoning loops). -/
def shadowMemset (sh : Shadow) (index count v : Nat) : Shadow :=
  match count with
  | 0 => sh
  | n + 1 => shadowMemset (fun g => if g = index then v else sh g) (index + 1) n v

/-- Modelled from the spec: `Shadow::Poison` (shadow.cc is absent from the
checkout).  Precondition `(addr + size) mod 8 == 0`.  Writes `shadow_val` to
every granule fully covered by `[addr, addr+size)`; when `addr` is unaligned,
the granule containing the start keeps its first `addr mod 8` bytes accessible
and is written as the partially-accessible marker `addr mod 8`. -/
def Poison (sh : Shadow) (addr size shadow_val : Nat) : Shadow :=
  if addr % kShadowRatio ≠ 0 then
    shadowMemset
      (fun g => if g = addr / kShadowRatio then addr % kShadowRatio else sh g)
      (addr / kShadowRatio + 1) (size / kShadowRatio) shadow_val
  else
    shadowMemset sh (addr / kShadowRatio) (size / kShadowRatio) shadow_val

/-- Modelled from the spec: `Shadow::Unpoison` (shadow.cc is absent from the
checkout).  Precondition `addr mod 8 == 0 && size mod 8 == 0`.  Resets every
covered granule to fully accessible. -/
def Unpoison (sh : Shadow) (addr size : Nat) : Shadow :=
  shadowMemset sh (addr / kShadowRatio) (size / kShadowRatio) kHeapAddressableByte

/-- Modelled from the spec: `Shadow::MarkAsFreed` paints the range with the
"freed" marker. -/
def MarkAsFreed (sh : Shadow) (addr size : Nat) : Shadow :=
  Poison sh addr size kHeapFreedByte

/-- Modelled from the spec: `Shadow::GetShadowMarkerForAddress` is the raw
marker lookup for the granule containing `addr`, with no validation. -/
def GetShadowMarkerForAddress (sh : Shadow) (addr : Nat) : Nat :=
  sh (addr / kShadowRatio)

/-- Modelled from the spec: `Shadow::IsAccessible` is true iff the granule is
fully accessible, or the byte is within the accessible-count of a
partially-accessible granule; false for any inaccessible marker. -/
def IsAccessible (sh : Shadow) (addr : Nat) : Bool :=
  let start := addr % kShadowRatio
  let shadow := sh (addr / kShadowRatio)
  if shadow = 0 then true
  else if shadow &&& kHeapNonAccessibleByteMask ≠ 0 then false
  else decide (start < shadow)

/-- A marker is an inaccessible marker when the top three bits are set. -/
def isInaccessibleMarker (m : Nat) : Bool := m &&& kHeapNonAccessibleByteMask ≠ 0

/-! ### Lemmas about `shadowMemset` -/

theorem shadowMemset_apply (count : Nat) :
    ∀ (sh : Shadow) (index v g : Nat),
      shadowMemset sh index count v g =
        if index ≤ g ∧ g < index + count then v else sh g := by
  induction count with
  | zero =>
    intro sh index v g
    simp only [shadowMemset, Nat.add_zero]
    have h : ¬(index ≤ g ∧ g < index) := by omega
    rw [if_neg h]
  | succ n ih =>
    intro sh index v g
    simp only [shadowMemset]
    rw [ih]
    by_cases hg : g = index
    · subst hg
      have h1 : ¬(g + 1 ≤ g ∧ g < g + 1 + n) := by omega
      have h2 : g ≤ g ∧ g < g + (n + 1) := by omega
      simp [h1, h2]
    · by_cases h1 : index + 1 ≤ g ∧ g < index + 1 + n
      · have h2 : index ≤ g ∧ g < index + (n + 1) := by omega
        simp [h1, h2]
      · by_cases h2 : index ≤ g ∧ g < index + (n + 1)
        · exfalso; omega
        · simp [h1, h2, hg]

/-- After `Poison`, the marker of a granule `g` fully covered by
`[addr, addr+size)` is `shadow_val`. -/
theorem poison_covered_marker (sh : Shadow) (addr size shadow_val g : Nat)
    (hpre : (addr + size) % 8 = 0)
    (hlo : addr ≤ 8 * g) (hhi : 8 * (g + 1) ≤ addr + size) :
    Poison sh addr size shadow_val g = shadow_val := by
  unfold Poison
  simp only [kShadowRatio]
  by_cases hstart : addr % 8 ≠ 0
  · rw [if_pos hstart, shadowMemset_apply]
    have hub : addr / 8 + 1 ≤ g ∧ g < addr / 8 + 1 + size / 8 := by omega
    rw [if_pos hub]
  · rw [if_neg hstart, shadowMemset_apply]
    have hub : addr / 8 ≤ g ∧ g < addr / 8 + size / 8 := by omega
    rw [if_pos hub]

/-- After `Poison`, granules outside `[addr/8, (addr+size+7)/8)` are unchanged. -/
theorem poison_outside (sh : Shadow) (addr size shadow_val g : Nat)
    (hg : g < addr / 8 ∨ 8 * g ≥ addr + size) :
    Poison sh addr size shadow_val g = sh g := by
  unfold Poison
  simp only [kShadowRatio]
  by_cases hstart : addr % 8 ≠ 0
  · rw [if_pos hstart, shadowMemset_apply]
    have h1 : ¬(addr / 8 + 1 ≤ g ∧ g < addr / 8 + 1 + size / 8) := by omega
    have h2 : g ≠ addr / 8 := by omega
    rw [if_neg h1, if_neg h2]
  · rw [if_neg hstart, shadowMemset_apply]
    have h1 : ¬(addr / 8 ≤ g ∧ g < addr / 8 + size / 8) := by omega
    rw [if_neg h1]

theorem getShadowMarker_eq (sh : Shadow) (g b : Nat) (hb : b < 8) :
    GetShadowMarkerForAddress sh (8 * g + b) = sh g := by
  unfold GetShadowMarkerForAddress
  simp only [kShadowRatio]
  congr 1
  omega

theorem isAccessible_of_inaccessible_marker (sh : Shadow) (a : Nat)
    (h : isInaccessibleMarker (sh (a / 8)) = true) :
    IsAccessible sh a = false := by
  unfold IsAccessible
  unfold isInaccessibleMarker at h
  simp only [kShadowRatio]
  have hne : sh (a / 8) ≠ 0 := by
    intro h0
    rw [h0] at h
    simp [kHeapNonAccessibleByteMask] at h
  rw [if_neg hne]
  simp only [decide_eq_true_eq] at h
  rw [if_pos h]

/-- C1: For every `addr`, `size` and marker `M` with `(addr+size) % 8 = 0`,
after `Poison addr size M` every granule fully covered by `[addr, addr+size)`
reports marker `M` via `GetShadowMarkerForAddress`; `IsAccessible` is false for
every byte of those granules whenever `M` is an inaccessible marker; and the
granule containing an unaligned start, if any, is encoded as partially
accessible (a marker in `0x01`–`0x07`). -/
theorem poison_spec (sh : Shadow) (addr size M : Nat)
    (hpre : (addr + size) % 8 = 0) :
    (∀ g b, addr ≤ 8 * g → 8 * (g + 1) ≤ addr + size → b < 8 →
      GetShadowMarkerForAddress (Poison sh addr size M) (8 * g + b) = M ∧
      (isInaccessibleMarker M = true →
        IsAccessible (Poison sh addr size M) (8 * g + b) = false)) ∧
    (addr % 8 ≠ 0 →
      1 ≤ Poison sh addr size M (addr / 8) ∧
      Poison sh addr size M (addr / 8) ≤ 7) := by
  constructor
  · intro g b hlo hhi hb
    have hmark : Poison sh addr size M g = M :=
      poison_covered_marker sh addr size M g hpre hlo hhi
    constructor
    · rw [getShadowMarker_eq _ _ _ hb, hmark]
    · intro hM
      apply isAccessible_of_inaccessible_marker
      have hdiv : (8 * g + b) / 8 = g := by omega
      rw [hdiv, hmark]
      exact hM
  · intro hstart
    unfold Poison
    simp only [kShadowRatio]
    rw [if_pos hstart, shadowMemset_apply]
    have h1 : ¬(addr / 8 + 1 ≤ addr / 8 ∧ addr / 8 < addr / 8 + 1 + size / 8) := by
      omega
    rw [if_neg h1, if_pos rfl]
    omega

/-- Witness for C1 at `addr = 66565`, `size = 11`, `M = kHeapFreedByte`:
granule 8321 is fully covered and granule `66565 / 8` holds the unaligned
start. -/
theorem poison_spec_witness :
    GetShadowMarkerForAddress (Poison resetShadow 66565 11 kHeapFreedByte)
        (8 * 8321 + 3) = kHeapFreedByte ∧
    IsAccessible (Poison resetShadow 66565 11 kHeapFreedByte)
        (8 * 8321 + 3) = false ∧
    1 ≤ Poison resetShadow 66565 11 kHeapFreedByte (66565 / 8) := by
  have h := poison_spec resetShadow 66565 11 kHeapFreedByte (by decide)
  have h1 := h.1 8321 3 (by decide) (by decide) (by decide)
  have h2 := h.2 (by decide)
  exact ⟨h1.1, h1.2 (by decide), h2.1⟩

/-- C7: For every `addr` and `size` with `addr % 8 = 0` and `size % 8 = 0`,
after `Unpoison addr size` every covered granule reports the fully-accessible
marker `0x00` and `IsAccessible` is true for every byte of `[addr, addr+size)`. -/
theorem unpoison_spec (sh : Shadow) (addr size : Nat)
    (ha : addr % 8 = 0) (hs : size % 8 = 0) :
    ∀ a, addr ≤ a → a < addr + size →
      GetShadowMarkerForAddress (Unpoison sh addr size) a = kHeapAddressableByte ∧
      IsAccessible (Unpoison sh addr size) a = true := by
  intro a hlo hhi
  have hg : addr / 8 ≤ a / 8 ∧ a / 8 < addr / 8 + size / 8 := by omega
  have hmark : Unpoison sh addr size (a / 8) = kHeapAddressableByte := by
    unfold Unpoison
    simp only [kShadowRatio]
    rw [shadowMemset_apply, if_pos hg]
  constructor
  · unfold GetShadowMarkerForAddress
    simp only [kShadowRatio]
    exact hmark
  · unfold IsAccessible
    simp only [kShadowRatio]
    simp [hmark, kHeapAddressableByte]

/-- Witness for C7 at `addr = 66560`, `size = 16`, byte `66571`. -/
theorem unpoison_spec_witness :
    GetShadowMarkerForAddress (Unpoison resetShadow 66560 16) 66571 =
        kHeapAddressableByte ∧
    IsAccessible (Unpoison resetShadow 66560 16) 66571 = true := by
  exact unpoison_spec resetShadow 66560 16 (by decide) (by decide) 66571
    (by decide) (by decide)

/-! ## GetNullTerminatedArraySize (shadow_impl.h, absent from the checkout) -/

/-- The least offset `j < w` such that byte `addr + j` is not certified
accessible by the shadow, if any. -/
def firstInaccessible (sh : Shadow) (addr w : Nat) : Option Nat :=
  (List.range w).find? (fun j => !(IsAccessible sh (addr + j)))

/-- True iff the `w` bytes starting at `addr` are all zero (a `sizeof(type)`
wide null terminator). -/
def isZeroElem (mem : Mem) (addr w : Nat) : Bool :=
  (List.range w).all (fun j => mem (addr + j) == 0)

/-- Modelled from the spec: the element-by-element scan of
`Shadow::GetNullTerminatedArraySize` (shadow_impl.h is absent from the
checkout).  `w` is `sizeof(type)`, `off` the byte offset scanned so far and
`fuel` bounds the number of elements still to be visited.  Before reading an
element the shadow is consulted for each of its bytes; an inaccessible byte
stops the scan with `(false, offset of that byte)`.  An all-zero element stops
it with `(true, offset past the terminator)`.  Reaching `max_size` scanned
bytes (when `max_size ≠ 0`) stops it with `false`.  The third component
records every byte address actually read from the application memory. -/
def gntasAux (sh : Shadow) (mem : Mem) (w addr max_size : Nat) :
    Nat → Nat → Bool × Nat × List Nat
  | 0, off => (false, off, [])
  | fuel + 1, off =>
    match firstInaccessible sh (addr + off) w with
    | some j => (false, off + j, [])
    | none =>
      let reads := (List.range w).map (fun j => addr + off + j)
      if isZeroElem mem (addr + off) w then (true, off + w, reads)
      else if max_size ≠ 0 ∧ max_size ≤ off + w then (false, off + w, reads)
      else
        let r := gntasAux sh mem w addr max_size fuel (off + w)
        (r.1, r.2.1, reads ++ r.2.2)

/-- Fuel sufficient for any scan: `max_size` elements when bounded, the whole
shadow-covered address space when `max_size = 0` means unbounded. -/
def gntasFuel (max_size : Nat) : Nat :=
  if max_size = 0 then kShadowSize else max_size

/-- Modelled from the spec: `Shadow::GetNullTerminatedArraySize<type>` with
`w = sizeof(type)`.  Returns the success flag and the reported size. -/
def GetNullTerminatedArraySize (sh : Shadow) (mem : Mem)
    (w addr max_size : Nat) : Bool × Nat :=
  let r := gntasAux sh mem w addr max_size (gntasFuel max_size) 0
  (r.1, r.2.1)

/-- The byte addresses that `GetNullTerminatedArraySize` reads from the
application memory. -/
def gntasReadBytes (sh : Shadow) (mem : Mem) (w addr max_size : Nat) : List Nat :=
  (gntasAux sh mem w addr max_size (gntasFuel max_size) 0).2.2

/-- Whether the scan stops at the element of width `w` at byte offset `off`:
an inaccessible byte, a null terminator, or the `max_size` cutoff. -/
def stopElem (sh : Shadow) (mem : Mem) (w addr max_size off : Nat) : Bool :=
  (firstInaccessible sh (addr + off) w).isSome ||
    isZeroElem mem (addr + off) w ||
    (decide (max_size ≠ 0) && decide (max_size ≤ off + w))

/-- The result the scan reports when it stops at the element at offset `off`. -/
def elemResult (sh : Shadow) (mem : Mem) (w addr off : Nat) : Bool × Nat :=
  match firstInaccessible sh (addr + off) w with
  | some j => (false, off + j)
  | none => if isZeroElem mem (addr + off) w then (true, off + w) else (false, off + w)

theorem firstInaccessible_eq_none (sh : Shadow) (addr w : Nat) :
    firstInaccessible sh addr w = none ↔
      ∀ j < w, IsAccessible sh (addr + j) = true := by
  unfold firstInaccessible
  rw [List.find?_eq_none]
  constructor
  · intro h j hj
    have := h j (List.mem_range.mpr hj)
    simpa using this
  · intro h x hx
    simp only [Bool.not_eq_true']
    have := h x (List.mem_range.mp hx)
    simp [this]

theorem isZeroElem_eq_true (mem : Mem) (addr w : Nat) :
    isZeroElem mem addr w = true ↔ ∀ j < w, mem (addr + j) = 0 := by
  unfold isZeroElem
  rw [List.all_eq_true]
  constructor
  · intro h j hj
    have := h j (List.mem_range.mpr hj)
    simpa using this
  · intro h x hx
    have := h x (List.mem_range.mp hx)
    simp [this]

/-- The scan stopping at the least stopping element: if no element before the
`n`-th stops the scan and the `n`-th does, the reported result is that of the
`n`-th element. -/
theorem gntasAux_least_stop (sh : Shadow) (mem : Mem) (w addr max_size : Nat) :
    ∀ (n fuel off : Nat), n < fuel →
      (∀ i < n, stopElem sh mem w addr max_size (off + i * w) = false) →
      stopElem sh mem w addr max_size (off + n * w) = true →
      ((gntasAux sh mem w addr max_size fuel off).1,
        (gntasAux sh mem w addr max_size fuel off).2.1) =
        elemResult sh mem w addr (off + n * w) := by
  intro n
  induction n with
  | zero =>
    intro fuel off hfuel _ hstop
    match fuel, hfuel with
    | fuel + 1, _ =>
      simp only [Nat.zero_mul, Nat.add_zero] at hstop ⊢
      unfold gntasAux elemResult
      unfold stopElem at hstop
      cases hfi : firstInaccessible sh (addr + off) w with
      | some j => simp
      | none =>
        rw [hfi] at hstop
        simp only [Option.isSome_none, Bool.false_or, Bool.or_eq_true,
          Bool.and_eq_true, decide_eq_true_eq] at hstop
        by_cases hz : isZeroElem mem (addr + off) w = true
        · simp [hz]
        · have hcut : max_size ≠ 0 ∧ max_size ≤ off + w := by
            rcases hstop with h | h
            · exact absurd h hz
            · exact ⟨h.1, h.2⟩
          rw [if_neg hz, if_pos hcut]
          simp [Bool.not_eq_true] at hz
          simp [hz]
  | succ n ih =>
    intro fuel off hfuel hprev hstop
    match fuel, hfuel with
    | fuel + 1, hfuel =>
      have h0 := hprev 0 (Nat.succ_pos n)
      simp only [Nat.zero_mul, Nat.add_zero] at h0
      unfold stopElem at h0
      simp only [Bool.or_eq_false_iff, Bool.and_eq_false_iff] at h0
      obtain ⟨⟨hfi, hz⟩, hcut⟩ := h0
      unfold gntasAux
      cases hfi' : firstInaccessible sh (addr + off) w with
      | some j => rw [hfi'] at hfi; simp at hfi
      | none =>
        have hzf : isZeroElem mem (addr + off) w = false := hz
        have hcut' : ¬(max_size ≠ 0 ∧ max_size ≤ off + w) := by
          intro hc
          rcases hcut with h | h
          · rw [decide_eq_false_iff_not] at h
            exact h hc.1
          · rw [decide_eq_false_iff_not] at h
            exact h hc.2
        rw [hzf]
        simp only [Bool.false_eq_true, if_false]
        rw [if_neg hcut']
        have hrec := ih fuel (off + w) (by omega)
          (fun i hi => by
            have := hprev (i + 1) (by omega)
            simpa [Nat.succ_mul, Nat.add_comm, Nat.add_assoc, Nat.add_left_comm]
              using this)
          (by
            have : off + w + n * w = off + (n + 1) * w := by ring
            rw [this]
            exact hstop)
        have harg : off + w + n * w = off + (n + 1) * w := by ring
        rw [harg] at hrec
        exact hrec

/-- Every byte the scan reads from the application memory is certified
accessible by the shadow. -/
theorem gntasAux_reads_accessible (sh : Shadow) (mem : Mem)
    (w addr max_size : Nat) :
    ∀ (fuel off a : Nat),
      a ∈ (gntasAux sh mem w addr max_size fuel off).2.2 →
      IsAccessible sh a = true := by
  intro fuel
  induction fuel with
  | zero => intro off a ha; simp [gntasAux] at ha
  | succ fuel ih =>
    intro off a ha
    unfold gntasAux at ha
    cases hfi : firstInaccessible sh (addr + off) w with
    | some j => rw [hfi] at ha; simp at ha
    | none =>
      rw [hfi] at ha
      have hall := (firstInaccessible_eq_none sh (addr + off) w).mp hfi
      by_cases hz : isZeroElem mem (addr + off) w = true
      · rw [hz] at ha
        simp only [if_true] at ha
        simp only [List.mem_map, List.mem_range] at ha
        obtain ⟨j, hj, rfl⟩ := ha
        exact hall j hj
      · simp only [Bool.not_eq_true] at hz
        rw [hz] at ha
        simp only [Bool.false_eq_true, if_false] at ha
        by_cases hcut : max_size ≠ 0 ∧ max_size ≤ off + w
        · rw [if_pos hcut] at ha
          simp only [List.mem_map, List.mem_range] at ha
          obtain ⟨j, hj, rfl⟩ := ha
          exact hall j hj
        · rw [if_neg hcut] at ha
          simp only [List.mem_append, List.mem_map, List.mem_range] at ha
          rcases ha with ⟨j, hj, rfl⟩ | ha
          · exact hall j hj
          · exact ih (off + w) a ha

theorem find?_range_eq_some (p : Nat → Bool) :
    ∀ (w j : Nat), j < w → p j = true → (∀ i < j, p i = false) →
      (List.range w).find? p = some j := by
  intro w
  induction w with
  | zero => intro j hj; omega
  | succ w ih =>
    intro j hj hpj hprev
    rw [List.range_succ, List.find?_append]
    by_cases hjw : j < w
    · rw [ih j hjw hpj hprev]
      rfl
    · have hjeq : j = w := by omega
      have hnone : (List.range w).find? p = none := by
        rw [List.find?_eq_none]
        intro x hx
        have hxw := List.mem_range.mp hx
        have := hprev x (by omega)
        simp [this]
      rw [hnone]
      have hpw : p w = true := by rw [← hjeq]; exact hpj
      simp [List.find?, hpw, hjeq]

theorem firstInaccessible_eq_some (sh : Shadow) (addr w j : Nat)
    (hj : j < w) (hbad : IsAccessible sh (addr + j) = false)
    (hprev : ∀ i < j, IsAccessible sh (addr + i) = true) :
    firstInaccessible sh addr w = some j := by
  unfold firstInaccessible
  apply find?_range_eq_some
  · exact hj
  · simp [hbad]
  · intro i hi
    simp [hprev i hi]

theorem isZeroElem_eq_false (mem : Mem) (addr w : Nat)
    (h : ∃ j < w, mem (addr + j) ≠ 0) : isZeroElem mem addr w = false := by
  rw [Bool.eq_false_iff]
  intro hz
  obtain ⟨j, hj, hne⟩ := h
  exact hne ((isZeroElem_eq_true mem addr w).mp hz j hj)

/-- C5: `GetNullTerminatedArraySize` (element width `w = sizeof(type)`) never
reads a byte the shadow does not certify accessible; it returns `true` with
size `k*w + w` (the array length including the `w`-wide terminator) when the
first all-zero element `k` lies in a contiguous accessible region before
`max_size` bytes (`max_size = 0` meaning unbounded); it returns `false` with
size the offset of the first inaccessible byte when that byte is reached first;
and it returns `false` with size the number of bytes scanned once `max_size`
is reached with no terminator and no inaccessible byte. -/
theorem getNullTerminatedArraySize_spec (sh : Shadow) (mem : Mem)
    (w addr max_size : Nat) (hw : 0 < w) :
    (∀ a ∈ gntasReadBytes sh mem w addr max_size, IsAccessible sh a = true) ∧
    (∀ k, (∀ o < k * w + w, IsAccessible sh (addr + o) = true) →
      (∀ j < w, mem (addr + (k * w + j)) = 0) →
      (∀ i < k, ∃ j < w, mem (addr + (i * w + j)) ≠ 0) →
      (max_size = 0 ∨ k * w + w ≤ max_size) →
      k < kShadowSize →
      GetNullTerminatedArraySize sh mem w addr max_size = (true, k * w + w)) ∧
    (∀ m, IsAccessible sh (addr + m) = false →
      (∀ o < m, IsAccessible sh (addr + o) = true) →
      (∀ i, i * w + w ≤ m → ∃ j < w, mem (addr + (i * w + j)) ≠ 0) →
      (max_size = 0 ∨ m / w * w < max_size) →
      m / w < kShadowSize →
      GetNullTerminatedArraySize sh mem w addr max_size = (false, m)) ∧
    (∀ k, max_size ≠ 0 → max_size ≤ k * w + w → k * w < max_size →
      (∀ o < k * w + w, IsAccessible sh (addr + o) = true) →
      (∀ i ≤ k, ∃ j < w, mem (addr + (i * w + j)) ≠ 0) →
      GetNullTerminatedArraySize sh mem w addr max_size = (false, k * w + w)) := by
  have hmain : ∀ (n : Nat), n < gntasFuel max_size →
      (∀ i < n, stopElem sh mem w addr max_size (i * w) = false) →
      stopElem sh mem w addr max_size (n * w) = true →
      GetNullTerminatedArraySize sh mem w addr max_size =
        elemResult sh mem w addr (n * w) := by
    intro n hfuel hprev hstop
    have h := gntasAux_least_stop sh mem w addr max_size n (gntasFuel max_size)
      0 hfuel (by simpa using hprev) (by simpa using hstop)
    simpa [GetNullTerminatedArraySize] using h
  refine ⟨?_, ?_, ?_, ?_⟩
  · intro a ha
    exact gntasAux_reads_accessible sh mem w addr max_size
      (gntasFuel max_size) 0 a ha
  · -- true case: terminator at element k
    intro k hacc hz hnz hcut hk
    have hkw : k ≤ k * w := Nat.le_mul_of_pos_right k hw
    have hnostop : ∀ i < k, stopElem sh mem w addr max_size (i * w) = false := by
      intro i hi
      have hiw : i * w + w ≤ k * w := by
        have := Nat.mul_le_mul_right w (by omega : i + 1 ≤ k)
        simpa [Nat.succ_mul] using this
      unfold stopElem
      have hfi : firstInaccessible sh (addr + i * w) w = none := by
        rw [firstInaccessible_eq_none]
        intro j hjw
        have : addr + i * w + j = addr + (i * w + j) := by omega
        rw [this]
        exact hacc (i * w + j) (by omega)
      have hze : isZeroElem mem (addr + i * w) w = false :=
        isZeroElem_eq_false mem (addr + i * w) w (by
          obtain ⟨j, hjw, hne⟩ := hnz i hi
          exact ⟨j, hjw, by
            have : addr + i * w + j = addr + (i * w + j) := by omega
            rw [this]; exact hne⟩)
      rw [hfi, hze]
      rcases hcut with h0 | hle
      · simp [h0]
      · have : ¬(max_size ≤ i * w + w) := by omega
        simp [this]
    have hstop : stopElem sh mem w addr max_size (k * w) = true := by
      unfold stopElem
      have hze : isZeroElem mem (addr + k * w) w = true := by
        rw [isZeroElem_eq_true]
        intro j hjw
        have : addr + k * w + j = addr + (k * w + j) := by omega
        rw [this]
        exact hz j hjw
      simp [hze]
    have hfuel : k < gntasFuel max_size := by
      unfold gntasFuel
      rcases hcut with h0 | hle
      · simp [h0]; omega
      · have hne : max_size ≠ 0 := by omega
        rw [if_neg hne]
        omega
    rw [hmain k hfuel hnostop hstop]
    unfold elemResult
    have hfi : firstInaccessible sh (addr + k * w) w = none := by
      rw [firstInaccessible_eq_none]
      intro j hjw
      have : addr + k * w + j = addr + (k * w + j) := by omega
      rw [this]
      exact hacc (k * w + j) (by omega)
    rw [hfi]
    have hze : isZeroElem mem (addr + k * w) w = true := by
      rw [isZeroElem_eq_true]
      intro j hjw
      have : addr + k * w + j = addr + (k * w + j) := by omega
      rw [this]
      exact hz j hjw
    simp [hze]
  · -- false case: first inaccessible byte at offset m
    intro m hbad hacc hnz hcut hk
    set i0 := m / w with hi0
    have hj0 : m % w < w := Nat.mod_lt m hw
    have hm : i0 * w + m % w = m := by
      rw [hi0, Nat.mul_comm]
      exact Nat.div_add_mod m w

    have hi0w : i0 * w ≤ m := by omega
    have hnostop : ∀ i < i0, stopElem sh mem w addr max_size (i * w) = false := by
      intro i hi
      have hiw : i * w + w ≤ i0 * w := by
        have := Nat.mul_le_mul_right w (by omega : i + 1 ≤ i0)
        simpa [Nat.succ_mul] using this
      unfold stopElem
      have hfi : firstInaccessible sh (addr + i * w) w = none := by
        rw [firstInaccessible_eq_none]
        intro j hjw
        have : addr + i * w + j = addr + (i * w + j) := by omega
        rw [this]
        exact hacc (i * w + j) (by omega)
      have hze : isZeroElem mem (addr + i * w) w = false :=
        isZeroElem_eq_false mem (addr + i * w) w (by
          obtain ⟨j, hjw, hne⟩ := hnz i (by omega)
          exact ⟨j, hjw, by
            have : addr + i * w + j = addr + (i * w + j) := by omega
            rw [this]; exact hne⟩)
      rw [hfi, hze]
      rcases hcut with h0 | hlt
      · simp [h0]
      · have : ¬(max_size ≤ i * w + w) := by omega
        simp [this]
    have hsome : firstInaccessible sh (addr + i0 * w) w = some (m % w) := by
      apply firstInaccessible_eq_some
      · exact hj0
      · have : addr + i0 * w + m % w = addr + m := by omega
        rw [this]
        exact hbad
      · intro i hi
        have : addr + i0 * w + i = addr + (i0 * w + i) := by omega
        rw [this]
        exact hacc (i0 * w + i) (by omega)
    have hstop : stopElem sh mem w addr max_size (i0 * w) = true := by
      unfold stopElem
      rw [hsome]
      simp
    have hfuel : i0 < gntasFuel max_size := by
      unfold gntasFuel
      rcases hcut with h0 | hlt
      · simp [h0]; omega
      · have hne : max_size ≠ 0 := by omega
        rw [if_neg hne]
        have : i0 ≤ i0 * w := Nat.le_mul_of_pos_right i0 hw
        omega
    rw [hmain i0 hfuel hnostop hstop]
    unfold elemResult
    rw [hsome]
    rw [Prod.mk.injEq]
    exact ⟨rfl, by omega⟩
  · -- false case: max_size cutoff at element k
    intro k hne hcut1 hcut2 hacc hnz
    have hkw : k ≤ k * w := Nat.le_mul_of_pos_right k hw
    have hnostop : ∀ i < k, stopElem sh mem w addr max_size (i * w) = false := by
      intro i hi
      have hiw : i * w + w ≤ k * w := by
        have := Nat.mul_le_mul_right w (by omega : i + 1 ≤ k)
        simpa [Nat.succ_mul] using this
      unfold stopElem
      have hfi : firstInaccessible sh (addr + i * w) w = none := by
        rw [firstInaccessible_eq_none]
        intro j hjw
        have : addr + i * w + j = addr + (i * w + j) := by omega
        rw [this]
        exact hacc (i * w + j) (by omega)
      have hze : isZeroElem mem (addr + i * w) w = false :=
        isZeroElem_eq_false mem (addr + i * w) w (by
          obtain ⟨j, hjw, hne'⟩ := hnz i (by omega)
          exact ⟨j, hjw, by
            have : addr + i * w + j = addr + (i * w + j) := by omega
            rw [this]; exact hne'⟩)
      rw [hfi, hze]
      have : ¬(max_size ≤ i * w + w) := by omega
      simp [this]
    have hfi : firstInaccessible sh (addr + k * w) w = none := by
      rw [firstInaccessible_eq_none]
      intro j hjw
      have : addr + k * w + j = addr + (k * w + j) := by omega
      rw [this]
      exact hacc (k * w + j) (by omega)
    have hze : isZeroElem mem (addr + k * w) w = false :=
      isZeroElem_eq_false mem (addr + k * w) w (by
        obtain ⟨j, hjw, hne'⟩ := hnz k (by omega)
        exact ⟨j, hjw, by
          have : addr + k * w + j = addr + (k * w + j) := by omega
          rw [this]; exact hne'⟩)
    have hstop : stopElem sh mem w addr max_size (k * w) = true := by
      unfold stopElem
      rw [hfi, hze]
      simp [hne, hcut1]
    have hfuel : k < gntasFuel max_size := by
      unfold gntasFuel
      rw [if_neg hne]
      omega
    rw [hmain k hfuel hnostop hstop]
    unfold elemResult
    rw [hfi]
    simp [hze]

/-- Witness for C5: the spec's example, a buffer `{'a','b','c',0}` at address
66560 whose first granule is accessible and whose following granule is freed;
the scan with `w = 1` and `max_size = 8` succeeds with size 4. -/
theorem getNullTerminatedArraySize_spec_witness :
    GetNullTerminatedArraySize
        (fun g => if g = 8320 then 0 else kHeapFreedByte)
        (fun a => if a = 66563 then 0 else 97)
        1 66560 8 = (true, 4) := by
  have h := (getNullTerminatedArraySize_spec
      (fun g => if g = 8320 then 0 else kHeapFreedByte)
      (fun a => if a = 66563 then 0 else 97)
      1 66560 8 (by decide)).2.1
  have h3 := h 3 (by decide) (by decide) (by decide) (by decide) (by decide)
  simpa using h3

/-! ## Block painting and shadow-based block introspection -/

/-- Block geometry as consumed/produced by the shadow operations (block.h is
an external collaborator; only the header/body/trailer byte ranges matter
here).  `block` is the start address; the header range includes the left
redzone padding and the trailer range includes the right redzone padding. -/
@[ext]
structure BlockInfo where
  block : Nat
  headerSize : Nat
  bodySize : Nat
  trailerSize : Nat
deriving DecidableEq

/-- The total allocation size of a block. -/
def BlockInfo.blockSize (i : BlockInfo) : Nat :=
  i.headerSize + i.bodySize + i.trailerSize

/-- Validity of a block description for the shadow encoding: the block starts
on a granule boundary, the header covers whole granules (1 to 8 of them, so
that its granule count fits the 3 metadata bits of the block-start marker),
the block ends on a granule boundary, and the trailer covers the right
padding of a partial body granule plus at least one whole granule for the
block-end byte. -/
def BlockInfo.IsValid (i : BlockInfo) : Prop :=
  i.block % 8 = 0 ∧
  i.headerSize % 8 = 0 ∧ 0 < i.headerSize ∧ i.headerSize ≤ 64 ∧
  (i.bodySize + i.trailerSize) % 8 = 0 ∧
  8 + (8 - i.bodySize % 8) % 8 ≤ i.trailerSize ∧
  i.block + i.blockSize ≤ kAddressUpperBound

instance (i : BlockInfo) : Decidable i.IsValid := by
  unfold BlockInfo.IsValid
  infer_instance

/-- From shadow.h: a marker in `0xe8`–`0xef` marks the beginning of a block;
its trailing 3 bits encode metadata about the block. -/
def isBlockStartByteMarker (m : Nat) : Bool :=
  decide (kHeapBlockStartByte0 ≤ m) && decide (m ≤ kHeapBlockStartByte0 + 7)

/-- Markers that can occur strictly inside a block (body, partial granule,
left and right redzones and the block-end byte); the backward walk of the
introspection functions may continue over these. -/
def isInteriorMarker (m : Nat) : Bool :=
  decide (m = kHeapAddressableByte) ||
    (decide (1 ≤ m) && decide (m ≤ 7)) ||
    decide (m = kHeapLeftRedzone) ||
    decide (m = kHeapRightRedzone) ||
    decide (m = kHeapBlockEndByte)

/-- The shadow byte painted for the `d`-th granule of a block: the block-start
marker carrying the header granule count in its 3 metadata bits, left-redzone
bytes for the rest of the header, fully-accessible bytes for the body (the
granule containing an unaligned body end is partially accessible), right
redzone for the trailer and padding, and the block-end byte for the final
granule. -/
def blockGranule (i : BlockInfo) (d : Nat) : Nat :=
  let lH := i.headerSize / 8
  let lB := i.bodySize / 8
  let r := i.bodySize % 8
  let lT := i.blockSize / 8
  if d = 0 then kHeapBlockStartByte0 + (lH - 1)
  else if d < lH then kHeapLeftRedzone
  else if d < lH + lB then kHeapAddressableByte
  else if r ≠ 0 ∧ d = lH + lB then r
  else if d + 1 < lT then kHeapRightRedzone
  else kHeapBlockEndByte

/-- Modelled from the spec: `Shadow::PoisonAllocatedBlock` (shadow.cc is
absent from the checkout).  Paints the granules covered by the block from its
geometry only, never reading block contents. -/
def PoisonAllocatedBlock (sh : Shadow) (i : BlockInfo) : Shadow :=
  fun g =>
    if i.block / 8 ≤ g ∧ g < i.block / 8 + i.blockSize / 8 then
      blockGranule i (g - i.block / 8)
    else sh g

/-- Modelled from the spec: the backward walk of the block-introspection
functions; walks the shadow backward from granule `g` until a block-start
marker is found, failing on any marker that cannot occur inside a block or on
reaching the bottom of the shadow. -/
def findBlockStartGranule (sh : Shadow) : Nat → Option Nat
  | 0 => if isBlockStartByteMarker (sh 0) then some 0 else none
  | g + 1 =>
    if isBlockStartByteMarker (sh (g + 1)) then some (g + 1)
    else if isInteriorMarker (sh (g + 1)) then findBlockStartGranule sh g
    else none

/-- Modelled from the spec: the forward scan for the block-end byte, over
interior markers only; `fuel` bounds the scan by the shadow size. -/
def findBlockEndGranule (sh : Shadow) : Nat → Nat → Option Nat
  | 0, _ => none
  | fuel + 1, g =>
    if sh g = kHeapBlockEndByte then some g
    else if isInteriorMarker (sh g) then findBlockEndGranule sh fuel (g + 1)
    else none

/-- Count of consecutive fully-accessible (body) granules starting at `g`. -/
def countBodyGranules (sh : Shadow) : Nat → Nat → Nat
  | 0, _ => 0
  | fuel + 1, g =>
    if sh g = kHeapAddressableByte then 1 + countBodyGranules sh fuel (g + 1)
    else 0

/-- Modelled from the spec: `Shadow::BlockInfoFromShadow` (shadow.cc is
absent from the checkout).  Reconstructs the block geometry around `addr`
purely from the shadow markers: walk backward to the block-start marker,
decode its 3 metadata bits into the header granule count, scan forward for
the block-end byte, and count body granules (plus a partially-accessible
granule for an unaligned body end).  Returns `none` when the region does not
resolve to one coherent block containing `addr`. -/
def BlockInfoFromShadow (sh : Shadow) (addr : Nat) : Option BlockInfo :=
  match findBlockStartGranule sh (addr / 8) with
  | none => none
  | some g0 =>
    let lH := sh g0 - kHeapBlockStartByte0 + 1
    match findBlockEndGranule sh kShadowSize (g0 + 1) with
    | none => none
    | some gE =>
      if gE < addr / 8 then none
      else
        let lB := countBodyGranules sh kShadowSize (g0 + lH)
        let m := sh (g0 + lH + lB)
        let r := if 1 ≤ m ∧ m ≤ 7 then m else 0
        some { block := 8 * g0
               headerSize := 8 * lH
               bodySize := 8 * lB + r
               trailerSize := 8 * (gE + 1 - g0) - 8 * lH - (8 * lB + r) }

/-- Modelled from the spec: `Shadow::GetAllocSize` derives the allocation
size of the block containing `mem` from the shadow, returning 0 on failure. -/
def GetAllocSize (sh : Shadow) (mem : Nat) : Nat :=
  match BlockInfoFromShadow sh mem with
  | none => 0
  | some i => i.blockSize

/-- Modelled from the spec: `Shadow::FindBlockBeginning` derives the start of
the block containing `mem` from the shadow, returning null on failure. -/
def FindBlockBeginning (sh : Shadow) (mem : Nat) : Option Nat :=
  match BlockInfoFromShadow sh mem with
  | none => none
  | some i => some i.block

/-! ### Region values of a painted block -/

theorem blockSize_mod_eight {i : BlockInfo} (hv : i.IsValid) :
    i.blockSize % 8 = 0 := by
  obtain ⟨-, h2, -, -, h5, -, -⟩ := hv
  unfold BlockInfo.blockSize
  omega

theorem blockGranule_start (i : BlockInfo) :
    blockGranule i 0 = kHeapBlockStartByte0 + (i.headerSize / 8 - 1) := by
  simp [blockGranule]

theorem blockGranule_header (i : BlockInfo) (d : Nat)
    (h1 : 0 < d) (h2 : d < i.headerSize / 8) :
    blockGranule i d = kHeapLeftRedzone := by
  simp only [blockGranule]
  rw [if_neg (by omega), if_pos h2]

theorem blockGranule_body (i : BlockInfo) (d : Nat)
    (h0 : 0 < d) (h1 : i.headerSize / 8 ≤ d)
    (h2 : d < i.headerSize / 8 + i.bodySize / 8) :
    blockGranule i d = kHeapAddressableByte := by
  simp only [blockGranule]
  rw [if_neg (by omega), if_neg (by omega), if_pos h2]

theorem blockGranule_partial_value (i : BlockInfo)
    (h0 : 0 < i.headerSize / 8) (hr : i.bodySize % 8 ≠ 0) :
    blockGranule i (i.headerSize / 8 + i.bodySize / 8) = i.bodySize % 8 := by
  simp only [blockGranule]
  rw [if_neg (by omega), if_neg (by omega), if_neg (by omega),
    if_pos (by exact ⟨hr, trivial⟩)]

theorem blockGranule_trailer (i : BlockInfo) (d : Nat)
    (h0 : 0 < i.headerSize / 8)
    (h1 : i.headerSize / 8 + i.bodySize / 8 ≤ d)
    (h2 : i.bodySize % 8 ≠ 0 → i.headerSize / 8 + i.bodySize / 8 < d)
    (h3 : d + 1 < i.blockSize / 8) :
    blockGranule i d = kHeapRightRedzone := by
  simp only [blockGranule]
  have hne : ¬(i.bodySize % 8 ≠ 0 ∧ d = i.headerSize / 8 + i.bodySize / 8) := by
    intro ⟨ha, hb⟩
    exact absurd hb (by have := h2 ha; omega)
  rw [if_neg (by omega), if_neg (by omega), if_neg (by omega), if_neg hne,
    if_pos h3]

theorem blockGranule_end (i : BlockInfo)
    (h0 : 0 < i.headerSize / 8)
    (h1 : i.headerSize / 8 + i.bodySize / 8 ≤ i.blockSize / 8 - 1)
    (h2 : i.bodySize % 8 ≠ 0 → i.headerSize / 8 + i.bodySize / 8 < i.blockSize / 8 - 1)
    (h3 : 1 ≤ i.blockSize / 8) :
    blockGranule i (i.blockSize / 8 - 1) = kHeapBlockEndByte := by
  simp only [blockGranule]
  have hne : ¬(i.bodySize % 8 ≠ 0 ∧
      i.blockSize / 8 - 1 = i.headerSize / 8 + i.bodySize / 8) := by
    intro ⟨ha, hb⟩
    exact absurd hb (by have := h2 ha; omega)
  rw [if_neg (by omega), if_neg (by omega), if_neg (by omega), if_neg hne,
    if_neg (by omega)]

/-- Arithmetic consequences of validity, in granule units. -/
theorem BlockInfo.IsValid.granule_facts {i : BlockInfo} (hv : i.IsValid) :
    1 ≤ i.headerSize / 8 ∧ i.headerSize / 8 ≤ 8 ∧
    i.headerSize / 8 + i.bodySize / 8 + 1 ≤ i.blockSize / 8 ∧
    (i.bodySize % 8 ≠ 0 →
      i.headerSize / 8 + i.bodySize / 8 + 2 ≤ i.blockSize / 8) ∧
    i.blockSize / 8 ≤ kShadowSize ∧
    8 * (i.blockSize / 8) = i.blockSize := by
  obtain ⟨-, h2, h3, h4, h5, h6, h7⟩ := hv
  have hksz : kShadowSize = 268435456 := by norm_num [kShadowSize]
  have hkub : kAddressUpperBound = 2147483648 := by
    norm_num [kAddressUpperBound, kShadowSize, kShadowRatio]
  rw [hkub] at h7
  unfold BlockInfo.blockSize at h7 ⊢
  rw [hksz]
  omega

/-- The five case regions of a painted block granule, for `0 < d < lT`. -/
theorem blockGranule_cases {i : BlockInfo} (hv : i.IsValid) (d : Nat)
    (h1 : 0 < d) (h2 : d < i.blockSize / 8) :
    blockGranule i d = kHeapLeftRedzone ∨
    blockGranule i d = kHeapAddressableByte ∨
    (blockGranule i d = i.bodySize % 8 ∧ 1 ≤ i.bodySize % 8 ∧
      i.bodySize % 8 ≤ 7) ∨
    blockGranule i d = kHeapRightRedzone ∨
    (blockGranule i d = kHeapBlockEndByte ∧ d = i.blockSize / 8 - 1) := by
  obtain ⟨hH1, hH8, hT1, hT2, hTS, hmul⟩ := hv.granule_facts
  by_cases hd1 : d < i.headerSize / 8
  · exact Or.inl (blockGranule_header i d h1 hd1)
  · by_cases hd2 : d < i.headerSize / 8 + i.bodySize / 8
    · exact Or.inr (Or.inl (blockGranule_body i d h1 (by omega) hd2))
    · by_cases hd3 : i.bodySize % 8 ≠ 0 ∧ d = i.headerSize / 8 + i.bodySize / 8
      · obtain ⟨hr0, hdeq⟩ := hd3
        subst hdeq
        exact Or.inr (Or.inr (Or.inl
          ⟨blockGranule_partial_value i (by omega) hr0, by omega, by omega⟩))
      · by_cases hd4 : d + 1 < i.blockSize / 8
        · refine Or.inr (Or.inr (Or.inr (Or.inl ?_)))
          apply blockGranule_trailer i d (by omega) (by omega) ?_ hd4
          intro hr
          rcases Nat.lt_or_ge (i.headerSize / 8 + i.bodySize / 8) d with h | h
          · exact h
          · exact absurd ⟨hr, by omega⟩ hd3
        · refine Or.inr (Or.inr (Or.inr (Or.inr ⟨?_, by omega⟩)))
          have hdeq : d = i.blockSize / 8 - 1 := by omega
          rw [hdeq]
          apply blockGranule_end i (by omega) (by omega) ?_ (by omega)
          intro hr
          have := hT2 hr
          omega

theorem blockGranule_interior {i : BlockInfo} (hv : i.IsValid) (d : Nat)
    (h1 : 0 < d) (h2 : d < i.blockSize / 8) :
    isInteriorMarker (blockGranule i d) = true ∧
    isBlockStartByteMarker (blockGranule i d) = false ∧
    (d < i.blockSize / 8 - 1 → blockGranule i d ≠ kHeapBlockEndByte) := by
  rcases blockGranule_cases hv d h1 h2 with h | h | ⟨h, hr1, hr7⟩ | h | ⟨h, hd⟩ <;>
    rw [h]
  · exact ⟨by decide, by decide, fun _ => by decide⟩
  · exact ⟨by decide, by decide, fun _ => by decide⟩
  · refine ⟨?_, ?_, fun _ => ?_⟩
    · simp only [isInteriorMarker, Bool.or_eq_true, Bool.and_eq_true,
        decide_eq_true_eq]
      exact Or.inl (Or.inl (Or.inl (Or.inr ⟨hr1, hr7⟩)))
    · rw [Bool.eq_false_iff]
      intro hcontra
      simp only [isBlockStartByteMarker, Bool.and_eq_true, decide_eq_true_eq,
        kHeapBlockStartByte0] at hcontra
      omega
    · simp only [kHeapBlockEndByte]
      omega
  · exact ⟨by decide, by decide, fun _ => by decide⟩
  · exact ⟨by decide, by decide, fun hlt => by omega⟩

/-- The painted shadow inside the block. -/
theorem pab_inside (sh : Shadow) (i : BlockInfo) (d : Nat)
    (h : d < i.blockSize / 8) :
    PoisonAllocatedBlock sh i (i.block / 8 + d) = blockGranule i d := by
  unfold PoisonAllocatedBlock
  rw [if_pos (by omega)]
  congr 1
  omega

/-- The painted shadow outside the block. -/
theorem pab_outside (sh : Shadow) (i : BlockInfo) (g : Nat)
    (h : g < i.block / 8 ∨ i.block / 8 + i.blockSize / 8 ≤ g) :
    PoisonAllocatedBlock sh i g = sh g := by
  unfold PoisonAllocatedBlock
  rw [if_neg (by omega)]

/-- The block-start marker painted at the block's first granule. -/
theorem pab_start {i : BlockInfo} (hv : i.IsValid) (sh : Shadow) :
    PoisonAllocatedBlock sh i (i.block / 8) =
      kHeapBlockStartByte0 + (i.headerSize / 8 - 1) ∧
    isBlockStartByteMarker (PoisonAllocatedBlock sh i (i.block / 8)) = true := by
  obtain ⟨hH1, hH8, hT1, hT2, hTS, hmul⟩ := hv.granule_facts
  have h0 : PoisonAllocatedBlock sh i (i.block / 8) = blockGranule i 0 := by
    have := pab_inside sh i 0 (by omega)
    simpa using this
  rw [h0, blockGranule_start]
  refine ⟨rfl, ?_⟩
  simp only [isBlockStartByteMarker, Bool.and_eq_true, decide_eq_true_eq,
    kHeapBlockStartByte0]
  omega

/-- The backward walk from any granule of a painted block finds the block's
first granule. -/
theorem findBlockStartGranule_pab {i : BlockInfo} (hv : i.IsValid)
    (sh : Shadow) :
    ∀ d, d < i.blockSize / 8 →
      findBlockStartGranule (PoisonAllocatedBlock sh i) (i.block / 8 + d) =
        some (i.block / 8) := by
  intro d
  induction d with
  | zero =>
    intro _
    rw [Nat.add_zero]
    have h := (pab_start hv sh).2
    cases hg : i.block / 8 with
    | zero =>
      rw [hg] at h
      simp [findBlockStartGranule, h]
    | succ g' =>
      rw [hg] at h
      simp [findBlockStartGranule, h]
  | succ d ih =>
    intro hd
    obtain ⟨hint, hnst, -⟩ := blockGranule_interior hv (d + 1) (by omega) hd
    have hval : PoisonAllocatedBlock sh i (i.block / 8 + d + 1) =
        blockGranule i (d + 1) := by
      have h := pab_inside sh i (d + 1) hd
      rw [← Nat.add_assoc] at h
      exact h
    have harg : i.block / 8 + (d + 1) = i.block / 8 + d + 1 := by omega
    rw [harg]
    simp only [findBlockStartGranule, hval, hnst, hint]
    simp only [Bool.false_eq_true, if_false, if_true]
    exact ih (by omega)

/-- The forward scan from any interior granule of a painted block finds the
block's final granule. -/
theorem findBlockEndGranule_pab {i : BlockInfo} (hv : i.IsValid) (sh : Shadow) :
    ∀ fuel d, 0 < d → d ≤ i.blockSize / 8 - 1 →
      i.blockSize / 8 - 1 - d < fuel →
      findBlockEndGranule (PoisonAllocatedBlock sh i) fuel (i.block / 8 + d) =
        some (i.block / 8 + (i.blockSize / 8 - 1)) := by
  obtain ⟨hH1, hH8, hT1, hT2, hTS, hmul⟩ := hv.granule_facts
  intro fuel
  induction fuel with
  | zero => intro d _ _ h; omega
  | succ fuel ih =>
    intro d hd1 hd2 hfuel
    by_cases hend : d = i.blockSize / 8 - 1
    · subst hend
      have hval := pab_inside sh i (i.blockSize / 8 - 1) (by omega)
      have hbg : blockGranule i (i.blockSize / 8 - 1) = kHeapBlockEndByte := by
        apply blockGranule_end i (by omega) (by omega) ?_ (by omega)
        intro hr
        have := hT2 hr
        omega
      simp only [findBlockEndGranule, hval, hbg, if_pos]
    · have hlt : d < i.blockSize / 8 - 1 := by omega
      obtain ⟨hint, -, hne⟩ := blockGranule_interior hv d hd1 (by omega)
      have hval := pab_inside sh i d (by omega)
      simp only [findBlockEndGranule, hval]
      rw [if_neg (hne hlt), if_pos hint]
      have harg : i.block / 8 + d + 1 = i.block / 8 + (d + 1) := by omega
      rw [harg]
      exact ih (d + 1) (by omega) (by omega) (by omega)

/-- The body-granule count of a painted block, scanning from the `b`-th body
granule. -/
theorem countBodyGranules_pab {i : BlockInfo} (hv : i.IsValid) (sh : Shadow) :
    ∀ fuel b, b ≤ i.bodySize / 8 →
      i.bodySize / 8 - b < fuel →
      countBodyGranules (PoisonAllocatedBlock sh i) fuel
        (i.block / 8 + (i.headerSize / 8 + b)) = i.bodySize / 8 - b := by
  obtain ⟨hH1, hH8, hT1, hT2, hTS, hmul⟩ := hv.granule_facts
  intro fuel
  induction fuel with
  | zero => intro b _ h; omega
  | succ fuel ih =>
    intro b hb hfuel
    by_cases hlast : b = i.bodySize / 8
    · subst hlast
      have hval := pab_inside sh i (i.headerSize / 8 + i.bodySize / 8) (by omega)
      have hnz : blockGranule i (i.headerSize / 8 + i.bodySize / 8) ≠
          kHeapAddressableByte := by
        by_cases hr : i.bodySize % 8 ≠ 0
        · rw [blockGranule_partial_value i (by omega) hr]
          simp only [kHeapAddressableByte]
          omega
        · by_cases hT : i.headerSize / 8 + i.bodySize / 8 + 1 < i.blockSize / 8
          · rw [blockGranule_trailer i _ (by omega) (by omega)
              (fun h => absurd h hr) hT]
            simp [kHeapRightRedzone, kHeapAddressableByte]
          · have hdeq : i.headerSize / 8 + i.bodySize / 8 = i.blockSize / 8 - 1 := by
              omega
            rw [hdeq, blockGranule_end i (by omega) (by omega)
              (fun h => absurd h hr) (by omega)]
            simp [kHeapBlockEndByte, kHeapAddressableByte]
      simp only [countBodyGranules, hval]
      rw [if_neg hnz]
      omega
    · have hblt : b < i.bodySize / 8 := by omega
      have hval := pab_inside sh i (i.headerSize / 8 + b) (by omega)
      have hzero : blockGranule i (i.headerSize / 8 + b) = kHeapAddressableByte :=
        blockGranule_body i _ (by omega) (by omega) (by omega)
      simp only [countBodyGranules, hval, hzero]
      rw [if_pos trivial]
      have harg : i.block / 8 + (i.headerSize / 8 + b) + 1 =
          i.block / 8 + (i.headerSize / 8 + (b + 1)) := by omega
      rw [harg, ih (b + 1) (by omega) (by omega)]
      omega

/-- The marker at the granule just past the full body granules of a painted
block: the partially-accessible count when the body end is unaligned, a right
redzone or block-end byte otherwise. -/
theorem pab_bodyEnd_marker {i : BlockInfo} (hv : i.IsValid) (sh : Shadow) :
    (i.bodySize % 8 ≠ 0 →
      PoisonAllocatedBlock sh i
          (i.block / 8 + (i.headerSize / 8 + i.bodySize / 8)) = i.bodySize % 8) ∧
    (i.bodySize % 8 = 0 →
      PoisonAllocatedBlock sh i
          (i.block / 8 + (i.headerSize / 8 + i.bodySize / 8)) = kHeapRightRedzone ∨
      PoisonAllocatedBlock sh i
          (i.block / 8 + (i.headerSize / 8 + i.bodySize / 8)) = kHeapBlockEndByte) := by
  obtain ⟨hH1, hH8, hT1, hT2, hTS, hmul⟩ := hv.granule_facts
  have hval := pab_inside sh i (i.headerSize / 8 + i.bodySize / 8) (by omega)
  constructor
  · intro hr
    rw [hval]
    exact blockGranule_partial_value i (by omega) hr
  · intro hr
    rw [hval]
    by_cases hT : i.headerSize / 8 + i.bodySize / 8 + 1 < i.blockSize / 8
    · exact Or.inl (blockGranule_trailer i _ (by omega) (by omega)
        (fun h => absurd h (by omega)) hT)
    · have hdeq : i.headerSize / 8 + i.bodySize / 8 = i.blockSize / 8 - 1 := by
        omega
      rw [hdeq]
      exact Or.inr (blockGranule_end i (by omega) (by omega)
        (fun h => absurd h (by omega)) (by omega))

/-- Roundtrip: on any painted block, `BlockInfoFromShadow` at any address of
the block recovers exactly the painted geometry. -/
theorem blockInfoFromShadow_pab {i : BlockInfo} (hv : i.IsValid) (sh : Shadow)
    (addr : Nat) (hlo : i.block ≤ addr) (hhi : addr < i.block + i.blockSize) :
    BlockInfoFromShadow (PoisonAllocatedBlock sh i) addr = some i := by
  obtain ⟨hH1, hH8, hT1, hT2, hTS, hmul⟩ := hv.granule_facts
  have hb8 : i.block % 8 = 0 := hv.1
  have hh8 : i.headerSize % 8 = 0 := hv.2.1
  have hdlt : addr / 8 - i.block / 8 < i.blockSize / 8 := by omega
  have hstart : findBlockStartGranule (PoisonAllocatedBlock sh i) (addr / 8) =
      some (i.block / 8) := by
    have h := findBlockStartGranule_pab hv sh (addr / 8 - i.block / 8) hdlt
    have harg : i.block / 8 + (addr / 8 - i.block / 8) = addr / 8 := by omega
    rw [harg] at h
    exact h
  have hHval : PoisonAllocatedBlock sh i (i.block / 8) - kHeapBlockStartByte0 + 1 =
      i.headerSize / 8 := by
    rw [(pab_start hv sh).1]
    simp only [kHeapBlockStartByte0]
    omega
  have hend : findBlockEndGranule (PoisonAllocatedBlock sh i) kShadowSize
      (i.block / 8 + 1) = some (i.block / 8 + (i.blockSize / 8 - 1)) :=
    findBlockEndGranule_pab hv sh kShadowSize 1 (by omega) (by omega) (by omega)
  have hcount : countBodyGranules (PoisonAllocatedBlock sh i) kShadowSize
      (i.block / 8 + (i.headerSize / 8 + 0)) = i.bodySize / 8 - 0 :=
    countBodyGranules_pab hv sh kShadowSize 0 (by omega) (by omega)
  rw [Nat.add_zero] at hcount
  rw [Nat.sub_zero] at hcount
  unfold BlockInfoFromShadow
  rw [hstart]
  simp only [hHval]
  rw [hend]
  simp only []
  rw [if_neg (by omega : ¬ i.block / 8 + (i.blockSize / 8 - 1) < addr / 8)]
  simp only [hcount]
  have harg3 : i.block / 8 + i.headerSize / 8 + i.bodySize / 8 =
      i.block / 8 + (i.headerSize / 8 + i.bodySize / 8) := by omega
  rw [harg3]
  obtain ⟨hpart, hwhole⟩ := pab_bodyEnd_marker hv sh
  have hsum : i.blockSize = i.headerSize + i.bodySize + i.trailerSize := rfl
  by_cases hr : i.bodySize % 8 ≠ 0
  · rw [hpart hr]
    rw [if_pos (by omega)]
    rw [Option.some.injEq]
    refine BlockInfo.ext ?_ ?_ ?_ ?_
    · show 8 * (i.block / 8) = i.block
      omega
    · show 8 * (i.headerSize / 8) = i.headerSize
      omega
    · show 8 * (i.bodySize / 8) + i.bodySize % 8 = i.bodySize
      omega
    · show 8 * (i.block / 8 + (i.blockSize / 8 - 1) + 1 - i.block / 8) -
          8 * (i.headerSize / 8) - (8 * (i.bodySize / 8) + i.bodySize % 8) =
          i.trailerSize
      omega
  · have hr0 : i.bodySize % 8 = 0 := by omega
    have hbig : (8 : Nat) ≤ PoisonAllocatedBlock sh i
        (i.block / 8 + (i.headerSize / 8 + i.bodySize / 8)) := by
      rcases hwhole hr0 with h | h <;> rw [h] <;> simp [kHeapRightRedzone,
        kHeapBlockEndByte]
    rw [if_neg (by omega)]
    rw [Option.some.injEq]
    refine BlockInfo.ext ?_ ?_ ?_ ?_
    · show 8 * (i.block / 8) = i.block
      omega
    · show 8 * (i.headerSize / 8) = i.headerSize
      omega
    · show 8 * (i.bodySize / 8) + 0 = i.bodySize
      omega
    · show 8 * (i.block / 8 + (i.blockSize / 8 - 1) + 1 - i.block / 8) -
          8 * (i.headerSize / 8) - (8 * (i.bodySize / 8) + 0) =
          i.trailerSize
      omega

/-- On the freshly reset shadow the backward walk never finds a block start. -/
theorem findBlockStartGranule_reset :
    ∀ g, findBlockStartGranule resetShadow g = none := by
  intro g
  induction g with
  | zero => simp [findBlockStartGranule, resetShadow, isBlockStartByteMarker,
      kHeapAddressableByte, kHeapBlockStartByte0]
  | succ g ih =>
    simp only [findBlockStartGranule, resetShadow]
    rw [if_neg (by simp [isBlockStartByteMarker, kHeapAddressableByte,
      kHeapBlockStartByte0]), if_pos (by simp [isInteriorMarker,
      kHeapAddressableByte])]
    exact ih

/-- Below a painted block over the reset shadow, the backward walk fails. -/
theorem findBlockStartGranule_pab_below (i : BlockInfo) :
    ∀ g, g < i.block / 8 →
      findBlockStartGranule (PoisonAllocatedBlock resetShadow i) g = none := by
  intro g
  induction g with
  | zero =>
    intro hg
    have hval : PoisonAllocatedBlock resetShadow i 0 = kHeapAddressableByte := by
      rw [pab_outside _ _ _ (Or.inl hg)]
      rfl
    simp [findBlockStartGranule, hval, isBlockStartByteMarker,
      kHeapAddressableByte, kHeapBlockStartByte0]
  | succ g ih =>
    intro hg
    have hval : PoisonAllocatedBlock resetShadow i (g + 1) =
        kHeapAddressableByte := by
      rw [pab_outside _ _ _ (Or.inl hg)]
      rfl
    simp only [findBlockStartGranule, hval]
    rw [if_neg (by simp [isBlockStartByteMarker, kHeapAddressableByte,
      kHeapBlockStartByte0]), if_pos (by simp [isInteriorMarker,
      kHeapAddressableByte])]
    exact ih (by omega)

/-- Above a painted block over the reset shadow, the backward walk descends
into the block and still reports the block's first granule. -/
theorem findBlockStartGranule_pab_above {i : BlockInfo} (hv : i.IsValid) :
    ∀ k, findBlockStartGranule (PoisonAllocatedBlock resetShadow i)
        (i.block / 8 + i.blockSize / 8 + k) = some (i.block / 8) := by
  obtain ⟨hH1, hH8, hT1, hT2, hTS, hmul⟩ := hv.granule_facts
  intro k
  induction k with
  | zero =>
    have hval : PoisonAllocatedBlock resetShadow i
        (i.block / 8 + i.blockSize / 8) = kHeapAddressableByte := by
      rw [pab_outside _ _ _ (Or.inr (by omega))]
      rfl
    have harg : i.block / 8 + i.blockSize / 8 =
        (i.block / 8 + (i.blockSize / 8 - 1)) + 1 := by omega
    rw [Nat.add_zero, harg]
    have hval' : PoisonAllocatedBlock resetShadow i
        ((i.block / 8 + (i.blockSize / 8 - 1)) + 1) = kHeapAddressableByte := by
      rw [← harg]
      exact hval
    simp only [findBlockStartGranule, hval']
    rw [if_neg (by simp [isBlockStartByteMarker, kHeapAddressableByte,
      kHeapBlockStartByte0]), if_pos (by simp [isInteriorMarker,
      kHeapAddressableByte])]
    exact findBlockStartGranule_pab hv resetShadow (i.blockSize / 8 - 1)
      (by omega)
  | succ k ih =>
    have hval : PoisonAllocatedBlock resetShadow i
        (i.block / 8 + i.blockSize / 8 + (k + 1)) = kHeapAddressableByte := by
      rw [pab_outside _ _ _ (Or.inr (by omega))]
      rfl
    have harg : i.block / 8 + i.blockSize / 8 + (k + 1) =
        (i.block / 8 + i.blockSize / 8 + k) + 1 := by omega
    rw [harg]
    have hval' : PoisonAllocatedBlock resetShadow i
        ((i.block / 8 + i.blockSize / 8 + k) + 1) = kHeapAddressableByte := by
      rw [← harg]
      exact hval
    simp only [findBlockStartGranule, hval']
    rw [if_neg (by simp [isBlockStartByteMarker, kHeapAddressableByte,
      kHeapBlockStartByte0]), if_pos (by simp [isInteriorMarker,
      kHeapAddressableByte])]
    exact ih

/-- The backward walk fails immediately on a freed granule. -/
theorem blockInfoFromShadow_freed (sh : Shadow) (addr : Nat)
    (h : sh (addr / 8) = kHeapFreedByte) :
    BlockInfoFromShadow sh addr = none := by
  have hwalk : findBlockStartGranule sh (addr / 8) = none := by
    cases hg : addr / 8 with
    | zero =>
      rw [hg] at h
      simp [findBlockStartGranule, h, isBlockStartByteMarker, kHeapFreedByte,
        kHeapBlockStartByte0]
    | succ g =>
      rw [hg] at h
      simp [findBlockStartGranule, h, isBlockStartByteMarker, isInteriorMarker,
        kHeapFreedByte, kHeapBlockStartByte0, kHeapAddressableByte,
        kHeapLeftRedzone, kHeapRightRedzone, kHeapBlockEndByte]
  unfold BlockInfoFromShadow
  rw [hwalk]

/-- The introspection fails above a painted block over the reset shadow. -/
theorem blockInfoFromShadow_pab_after {i : BlockInfo} (hv : i.IsValid)
    (addr : Nat) (h : i.block + i.blockSize ≤ addr) :
    BlockInfoFromShadow (PoisonAllocatedBlock resetShadow i) addr = none := by
  obtain ⟨hH1, hH8, hT1, hT2, hTS, hmul⟩ := hv.granule_facts
  have hb8 : i.block % 8 = 0 := hv.1
  have hk : addr / 8 = i.block / 8 + i.blockSize / 8 +
      (addr / 8 - i.block / 8 - i.blockSize / 8) := by omega
  have hstart := findBlockStartGranule_pab_above hv
    (addr / 8 - i.block / 8 - i.blockSize / 8)
  rw [← hk] at hstart
  have hend : findBlockEndGranule (PoisonAllocatedBlock resetShadow i)
      kShadowSize (i.block / 8 + 1) =
      some (i.block / 8 + (i.blockSize / 8 - 1)) :=
    findBlockEndGranule_pab hv resetShadow kShadowSize 1 (by omega) (by omega)
      (by omega)
  unfold BlockInfoFromShadow
  rw [hstart]
  simp only []
  rw [hend]
  simp only []
  rw [if_pos (by omega)]

/-- The introspection fails below a painted block over the reset shadow. -/
theorem blockInfoFromShadow_pab_before {i : BlockInfo} (hv : i.IsValid)
    (addr : Nat) (h : addr < i.block) :
    BlockInfoFromShadow (PoisonAllocatedBlock resetShadow i) addr = none := by
  have hb8 : i.block % 8 = 0 := hv.1
  have hwalk := findBlockStartGranule_pab_below i (addr / 8) (by omega)
  unfold BlockInfoFromShadow
  rw [hwalk]

/-- The introspection fails everywhere on the freshly reset shadow. -/
theorem blockInfoFromShadow_reset (addr : Nat) :
    BlockInfoFromShadow resetShadow addr = none := by
  unfold BlockInfoFromShadow
  rw [findBlockStartGranule_reset]

/-- C2: For every valid (non-nested) block description `i`, after
`PoisonAllocatedBlock i` the function `BlockInfoFromShadow` applied to any
address inside the block succeeds and recovers geometry equal to `i`; it
fails when the region does not resolve to one coherent block (on the freshly
reset shadow, and on a freed granule). -/
theorem blockInfoFromShadow_spec (i : BlockInfo) (hv : i.IsValid) :
    (∀ sh addr, i.block ≤ addr → addr < i.block + i.blockSize →
      BlockInfoFromShadow (PoisonAllocatedBlock sh i) addr = some i) ∧
    (∀ addr, BlockInfoFromShadow resetShadow addr = none) ∧
    (∀ sh addr, sh (addr / 8) = kHeapFreedByte →
      BlockInfoFromShadow sh addr = none) :=
  ⟨fun sh addr h1 h2 => blockInfoFromShadow_pab hv sh addr h1 h2,
    blockInfoFromShadow_reset,
    blockInfoFromShadow_freed⟩

/-- Witness for C2: the block at 65536 with a 16-byte header, 20-byte body
and 28-byte trailer is recovered exactly from the shadow at an interior
address. -/
theorem blockInfoFromShadow_spec_witness :
    BlockInfoFromShadow
        (PoisonAllocatedBlock resetShadow
          { block := 65536, headerSize := 16, bodySize := 20, trailerSize := 28 })
        65566 =
      some { block := 65536, headerSize := 16, bodySize := 20,
             trailerSize := 28 } := by
  have h := blockInfoFromShadow_spec
    { block := 65536, headerSize := 16, bodySize := 20, trailerSize := 28 }
    (by constructor <;> simp [BlockInfo.blockSize, kAddressUpperBound,
      kShadowSize, kShadowRatio])
  exact h.1 resetShadow 65566 (by decide)
    (by simp [BlockInfo.blockSize])

/-- C6: For every address inside a block painted by `PoisonAllocatedBlock`,
`GetAllocSize` returns the block's true allocation size and
`FindBlockBeginning` returns the block's start; for addresses in unallocated
memory before or after the block, or whose granule is marked freed, both
return the failure sentinel 0 / none. -/
theorem getAllocSize_findBlockBeginning_spec (i : BlockInfo) (hv : i.IsValid) :
    (∀ sh addr, i.block ≤ addr → addr < i.block + i.blockSize →
      GetAllocSize (PoisonAllocatedBlock sh i) addr = i.blockSize ∧
      FindBlockBeginning (PoisonAllocatedBlock sh i) addr = some i.block) ∧
    (∀ addr, addr < i.block →
      GetAllocSize (PoisonAllocatedBlock resetShadow i) addr = 0 ∧
      FindBlockBeginning (PoisonAllocatedBlock resetShadow i) addr = none) ∧
    (∀ addr, i.block + i.blockSize ≤ addr →
      GetAllocSize (PoisonAllocatedBlock resetShadow i) addr = 0 ∧
      FindBlockBeginning (PoisonAllocatedBlock resetShadow i) addr = none) ∧
    (∀ sh addr, sh (addr / 8) = kHeapFreedByte →
      GetAllocSize sh addr = 0 ∧ FindBlockBeginning sh addr = none) := by
  refine ⟨?_, ?_, ?_, ?_⟩
  · intro sh addr h1 h2
    have h := blockInfoFromShadow_pab hv sh addr h1 h2
    unfold GetAllocSize FindBlockBeginning
    rw [h]
    exact ⟨rfl, rfl⟩
  · intro addr h1
    have h := blockInfoFromShadow_pab_before hv addr h1
    unfold GetAllocSize FindBlockBeginning
    rw [h]
    exact ⟨rfl, rfl⟩
  · intro addr h1
    have h := blockInfoFromShadow_pab_after hv addr h1
    unfold GetAllocSize FindBlockBeginning
    rw [h]
    exact ⟨rfl, rfl⟩
  · intro sh addr h1
    have h := blockInfoFromShadow_freed sh addr h1
    unfold GetAllocSize FindBlockBeginning
    rw [h]
    exact ⟨rfl, rfl⟩

/-- Witness for C6: the block at 65600 with a 24-byte header, 32-byte body
and 8-byte trailer; an interior address yields its size and start, an
address past the block fails, and a freed granule fails. -/
theorem getAllocSize_findBlockBeginning_spec_witness :
    GetAllocSize
        (PoisonAllocatedBlock resetShadow
          { block := 65600, headerSize := 24, bodySize := 32, trailerSize := 8 })
        65640 = 64 ∧
    FindBlockBeginning
        (PoisonAllocatedBlock resetShadow
          { block := 65600, headerSize := 24, bodySize := 32, trailerSize := 8 })
        65640 = some 65600 ∧
    GetAllocSize
        (PoisonAllocatedBlock resetShadow
          { block := 65600, headerSize := 24, bodySize := 32, trailerSize := 8 })
        65536 = 0 ∧
    GetAllocSize (fun _ => kHeapFreedByte) 65536 = 0 := by
  have h := getAllocSize_findBlockBeginning_spec
    { block := 65600, headerSize := 24, bodySize := 32, trailerSize := 8 }
    (by constructor <;> simp [BlockInfo.blockSize, kAddressUpperBound,
      kShadowSize, kShadowRatio])
  have hin := h.1 resetShadow 65640 (by decide) (by simp [BlockInfo.blockSize])
  have hbefore := h.2.1 65536 (by decide)
  have hfreed := h.2.2.2 (fun _ => kHeapFreedByte) 65536 rfl
  exact ⟨hin.1, hin.2, hbefore.1, hfreed.1⟩

/-! ## ShadowWalker -/

/-- The walker over the blocks of `[lower_bound, upper_bound)`: `next_block`
is the position the next scan starts from (`upper_bound` once exhausted). -/
structure ShadowWalker where
  lower_bound : Nat
  upper_bound : Nat
  next_block : Nat
deriving DecidableEq

/-- Modelled from the spec: construction sets the walker to its lower bound. -/
def ShadowWalker.init (lower upper : Nat) : ShadowWalker :=
  { lower_bound := lower, upper_bound := upper, next_block := lower }

/-- Modelled from the spec: `ShadowWalker::Reset` rewinds to the lower bound. -/
def ShadowWalker.Reset (w : ShadowWalker) : ShadowWalker :=
  { lower_bound := w.lower_bound, upper_bound := w.upper_bound,
    next_block := w.lower_bound }

/-- Scan `count` granules starting at `g` for a block-start marker. -/
def findNextBlockStart (sh : Shadow) : Nat → Nat → Option Nat
  | _, 0 => none
  | g, count + 1 =>
    if isBlockStartByteMarker (sh g) then some g
    else findNextBlockStart sh (g + 1) count

/-- Modelled from the spec: `ShadowWalker::Next` (shadow.cc is absent from
the checkout).  Advances to the next granule-aligned address whose shadow
marks a block start within bounds, returning it with `true`; once exhausted
it returns `false` with the output set to `upper_bound`. -/
def ShadowWalker.Next (sh : Shadow) (w : ShadowWalker) :
    (Bool × Nat) × ShadowWalker :=
  match findNextBlockStart sh ((w.next_block + 7) / 8)
      ((w.upper_bound + 7) / 8 - (w.next_block + 7) / 8) with
  | some g =>
    ((true, 8 * g),
      { lower_bound := w.lower_bound, upper_bound := w.upper_bound,
        next_block := 8 * g + 8 })
  | none =>
    ((false, w.upper_bound),
      { lower_bound := w.lower_bound, upper_bound := w.upper_bound,
        next_block := w.upper_bound })

/-- All block-start addresses the walker yields, in order, calling `Next`
until it reports exhaustion (`fuel` bounds the number of calls). -/
def walkAll (sh : Shadow) : Nat → ShadowWalker → List Nat
  | 0, _ => []
  | fuel + 1, w =>
    match ShadowWalker.Next sh w with
    | ((true, out), w') => out :: walkAll sh fuel w'
    | ((false, _), _) => []

/-- The granule-aligned addresses of `[lower, upper)` whose shadow byte is a
block-start marker, in ascending order. -/
def blockStartsIn (sh : Shadow) (lower upper : Nat) : List Nat :=
  ((List.range' ((lower + 7) / 8) ((upper + 7) / 8 - (lower + 7) / 8)).filter
    (fun g => isBlockStartByteMarker (sh g))).map (fun g => 8 * g)

theorem findNextBlockStart_eq_head (sh : Shadow) :
    ∀ (count g : Nat),
      findNextBlockStart sh g count =
        ((List.range' g count).filter
          (fun x => isBlockStartByteMarker (sh x))).head? := by
  intro count
  induction count with
  | zero => intro g; simp [findNextBlockStart]
  | succ n ih =>
    intro g
    rw [List.range'_succ]
    simp only [findNextBlockStart, List.filter_cons]
    by_cases h : isBlockStartByteMarker (sh g) = true
    · simp [h]
    · rw [Bool.not_eq_true] at h
      simp only [h]
      simp only [Bool.false_eq_true, if_false, if_true]
      exact ih (g + 1)

theorem filter_head_decomp (p : Nat → Bool) :
    ∀ (n a g : Nat),
      ((List.range' a n).filter p).head? = some g →
      a ≤ g ∧ g < a + n ∧ p g = true ∧
        (List.range' a n).filter p =
          g :: (List.range' (g + 1) (a + n - (g + 1))).filter p := by
  intro n
  induction n with
  | zero => intro a g h; simp at h
  | succ n ih =>
    intro a g h
    rw [List.range'_succ] at h ⊢
    rw [List.filter_cons] at h ⊢
    by_cases hp : p a = true
    · rw [if_pos hp] at h ⊢
      simp only [List.head?_cons, Option.some.injEq] at h
      refine ⟨by omega, by omega, by rw [← h]; exact hp, ?_⟩
      rw [← h]
      have : a + (n + 1) - (a + 1) = n := by omega
      rw [this]
    · rw [Bool.not_eq_true] at hp
      rw [hp] at h ⊢
      simp only [Bool.false_eq_true, if_false] at h ⊢
      obtain ⟨h1, h2, h3, h4⟩ := ih (a + 1) g h
      refine ⟨by omega, by omega, h3, ?_⟩
      rw [h4]
      have : a + 1 + n - (g + 1) = a + (n + 1) - (g + 1) := by omega
      rw [this]

theorem pairwise_lt_range' : ∀ (n s : Nat), (List.range' s n).Pairwise (· < ·) := by
  intro n
  induction n with
  | zero => intro s; simp
  | succ n ih =>
    intro s
    rw [List.range'_succ]
    constructor
    · intro b hb
      rw [List.mem_range'] at hb
      obtain ⟨k, hk, rfl⟩ := hb
      omega
    · exact ih (s + 1)

/-- The walker's successive outputs from position `nb` are exactly the
block-start addresses of `[nb, upper)`. -/
theorem walkAll_eq (sh : Shadow) (lower upper : Nat) :
    ∀ fuel nb, (upper + 7) / 8 - (nb + 7) / 8 < fuel →
      walkAll sh fuel
          { lower_bound := lower, upper_bound := upper, next_block := nb } =
        ((List.range' ((nb + 7) / 8)
            ((upper + 7) / 8 - (nb + 7) / 8)).filter
          (fun g => isBlockStartByteMarker (sh g))).map (fun g => 8 * g) := by
  intro fuel
  induction fuel with
  | zero => intro nb h; omega
  | succ fuel ih =>
    intro nb hfuel
    cases hfind : findNextBlockStart sh ((nb + 7) / 8)
        ((upper + 7) / 8 - (nb + 7) / 8) with
    | none =>
      have hnext : ShadowWalker.Next sh
          { lower_bound := lower, upper_bound := upper, next_block := nb } =
          ((false, upper),
            { lower_bound := lower, upper_bound := upper,
              next_block := upper }) := by
        unfold ShadowWalker.Next
        rw [hfind]
      rw [findNextBlockStart_eq_head] at hfind
      have hempty : ((List.range' ((nb + 7) / 8)
          ((upper + 7) / 8 - (nb + 7) / 8)).filter
          (fun g => isBlockStartByteMarker (sh g))) = [] :=
        List.head?_eq_none_iff.mp hfind
      rw [hempty]
      simp only [walkAll, hnext, List.map_nil]
    | some g =>
      have hnext : ShadowWalker.Next sh
          { lower_bound := lower, upper_bound := upper, next_block := nb } =
          ((true, 8 * g),
            { lower_bound := lower, upper_bound := upper,
              next_block := 8 * g + 8 }) := by
        unfold ShadowWalker.Next
        rw [hfind]
      rw [findNextBlockStart_eq_head] at hfind
      obtain ⟨hg1, hg2, hg3, hg4⟩ := filter_head_decomp _ _ _ _ hfind
      simp only [walkAll, hnext]
      have hnb' : (8 * g + 8 + 7) / 8 = g + 1 := by omega
      have hrec := ih (8 * g + 8) (by omega)
      rw [hnb'] at hrec
      rw [hrec, hg4]
      have harith : (nb + 7) / 8 + ((upper + 7) / 8 - (nb + 7) / 8) -
          (g + 1) = (upper + 7) / 8 - (g + 1) := by omega
      rw [harith]
      simp

/-- C8: A walker over `[lower, upper)` reset to its lower bound yields, via
successive `Next` calls each returning true, exactly the ascending list of
granule-aligned addresses of the region whose shadow byte is a block-start
marker, and then reports exhaustion; a `Next` that returns false sets its
output to a value at least `upper_bound`; and `Reset` rewinds the walker to
its lower bound. -/
theorem shadowWalker_spec (sh : Shadow) (lower upper : Nat) :
    (∀ fuel, (upper + 7) / 8 - (lower + 7) / 8 < fuel →
      walkAll sh fuel (ShadowWalker.Reset (ShadowWalker.init lower upper)) =
        blockStartsIn sh lower upper) ∧
    (∀ b, b ∈ blockStartsIn sh lower upper ↔
      (b % 8 = 0 ∧ lower ≤ b ∧ b < upper ∧
        isBlockStartByteMarker (sh (b / 8)) = true)) ∧
    List.Pairwise (· < ·) (blockStartsIn sh lower upper) ∧
    (∀ w : ShadowWalker, (ShadowWalker.Next sh w).1.1 = false →
      w.upper_bound ≤ (ShadowWalker.Next sh w).1.2) ∧
    (∀ w : ShadowWalker, (ShadowWalker.Reset w).next_block = w.lower_bound) := by
  refine ⟨?_, ?_, ?_, ?_, ?_⟩
  · intro fuel hfuel
    exact walkAll_eq sh lower upper fuel lower hfuel
  · intro b
    unfold blockStartsIn
    simp only [List.mem_map, List.mem_filter, List.mem_range']
    constructor
    · rintro ⟨g, ⟨⟨k, hk, rfl⟩, hstart⟩, rfl⟩
      refine ⟨by omega, by omega, by omega, ?_⟩
      have : 8 * ((lower + 7) / 8 + 1 * k) / 8 = (lower + 7) / 8 + 1 * k := by
        omega
      rw [this]
      exact hstart
    · rintro ⟨hmod, hlo, hhi, hstart⟩
      refine ⟨b / 8, ⟨⟨b / 8 - (lower + 7) / 8, by omega, by omega⟩, hstart⟩,
        by omega⟩
  · exact List.Pairwise.map _ (fun a b h => by omega)
      (List.Pairwise.filter _ (pairwise_lt_range' _ _))
  · intro w
    unfold ShadowWalker.Next
    cases hfind : findNextBlockStart sh ((w.next_block + 7) / 8)
        ((w.upper_bound + 7) / 8 - (w.next_block + 7) / 8) with
    | none => intro _; exact Nat.le_refl _
    | some g => intro hcontra; simp at hcontra
  · intro w
    rfl

/-- Witness for C8: a shadow holding block-start markers at granules 3 and 6;
the walker over `[16, 64)` yields 24 and 48 and then exhausts. -/
theorem shadowWalker_spec_witness :
    walkAll (fun g => if g = 3 ∨ g = 6 then kHeapBlockStartByte0 else 0) 7
        (ShadowWalker.Reset (ShadowWalker.init 16 64)) = [24, 48] ∧
    (24 : Nat) < 48 := by
  have h := (shadowWalker_spec
    (fun g => if g = 3 ∨ g = 6 then kHeapBlockStartByte0 else 0) 16 64).1
    7 (by decide)
  constructor
  · rw [h]
    decide
  · decide

/-! ## StackCaptureCache and CachePage -/

/-- From stack_capture_cache.h: the size of a page of stack captures. -/
def kCachePageSize : Nat := 1024 * 1024

/-- Modelled from the 32-bit target (shadow.h notes the process is not large
address aware): `sizeof(CachePage*)` is 4 bytes. -/
def sizeofCachePagePtr : Nat := 4

/-- Modelled from the 32-bit target: `sizeof(size_t)` is 4 bytes. -/
def sizeofSizeT : Nat := 4

/-- From stack_capture_cache.h: the usable data area of a cache page is the
page size minus the `next_page_` pointer and the `bytes_used_` counter. -/
def kDataSize : Nat := kCachePageSize - sizeofCachePagePtr - sizeofSizeT

/-- Modelled from the spec: the byte size of a StackCapture record able to
hold `max_num_frames` frame pointers (stack_capture.h is absent from the
checkout): a fixed header plus 4 bytes per 32-bit frame pointer. -/
def stackCaptureSize (max_num_frames : Nat) : Nat := 8 + 4 * max_num_frames

/-- A cache page, reduced to its allocation offset: `bytes_used` is also the
offset of the next StackCapture object to be allocated. -/
structure CachePage where
  bytes_used : Nat
deriving DecidableEq

/-- A capture allocated from a page, identified by its offset and size. -/
structure PageCapture where
  offset : Nat
  size : Nat
deriving DecidableEq

/-- Modelled from the spec: `CachePage::GetNextStackCapture` bump-allocates
room sized for up to `max_num_frames` frames, returning null if the page
lacks space. -/
def CachePage.GetNextStackCapture (p : CachePage) (max_num_frames : Nat) :
    Option PageCapture × CachePage :=
  if p.bytes_used + stackCaptureSize max_num_frames ≤ kDataSize then
    (some { offset := p.bytes_used, size := stackCaptureSize max_num_frames },
      { bytes_used := p.bytes_used + stackCaptureSize max_num_frames })
  else (none, p)

/-- Modelled from the spec: `CachePage::ReleaseStackCapture` undoes the most
recent allocation (rolls the offset back); used on any other capture it is a
no-op. -/
def CachePage.ReleaseStackCapture (p : CachePage) (c : PageCapture) : CachePage :=
  if c.offset + c.size = p.bytes_used then
    { bytes_used := p.bytes_used - c.size }
  else p

/-- C4: A page's `bytes_used` never decreases under allocation; releasing the
most recently allocated capture returns it exactly to its pre-allocation
value; releasing any non-tail capture is a no-op. -/
theorem releaseStackCapture_spec :
    (∀ (p : CachePage) (m : Nat) (c : PageCapture) (p' : CachePage),
      p.GetNextStackCapture m = (some c, p') →
      p'.ReleaseStackCapture c = p ∧ p.bytes_used ≤ p'.bytes_used) ∧
    (∀ (p : CachePage) (m : Nat),
      p.bytes_used ≤ (p.GetNextStackCapture m).2.bytes_used) ∧
    (∀ (p : CachePage) (c : PageCapture),
      c.offset + c.size ≠ p.bytes_used → p.ReleaseStackCapture c = p) := by
  refine ⟨?_, ?_, ?_⟩
  · intro p m c p' h
    unfold CachePage.GetNextStackCapture at h
    by_cases hfit : p.bytes_used + stackCaptureSize m ≤ kDataSize
    · rw [if_pos hfit] at h
      obtain ⟨hc, hp'⟩ := Prod.mk.injEq .. ▸ h
      injection hc with hc
      constructor
      · rw [← hp', ← hc]
        unfold CachePage.ReleaseStackCapture
        rw [if_pos rfl]
        simp
      · rw [← hp']
        simp
    · rw [if_neg hfit] at h
      obtain ⟨hc, -⟩ := Prod.mk.injEq .. ▸ h
      simp at hc
  · intro p m
    unfold CachePage.GetNextStackCapture
    by_cases hfit : p.bytes_used + stackCaptureSize m ≤ kDataSize
    · rw [if_pos hfit]
      simp
    · rw [if_neg hfit]
  · intro p c h
    unfold CachePage.ReleaseStackCapture
    rw [if_neg h]

/-- Witness for C4: a page with 16 bytes used; allocating room for 2 frames
and releasing it restores 16; releasing a non-tail capture is a no-op. -/
theorem releaseStackCapture_spec_witness :
    CachePage.ReleaseStackCapture
        (CachePage.GetNextStackCapture { bytes_used := 16 } 2).2
        { offset := 16, size := stackCaptureSize 2 } =
      { bytes_used := 16 } ∧
    CachePage.ReleaseStackCapture { bytes_used := 16 }
        { offset := 0, size := 8 } = { bytes_used := 16 } := by
  have h1 := releaseStackCapture_spec.1 { bytes_used := 16 } 2
    { offset := 16, size := stackCaptureSize 2 }
    (CachePage.GetNextStackCapture { bytes_used := 16 } 2).2
    (by decide)
  have h2 := releaseStackCapture_spec.2.2 { bytes_used := 16 }
    { offset := 0, size := 8 } (by decide)
  exact ⟨h1.1, h2⟩

/-- C10: the page constants: a cache page occupies 1 MiB, a multiple of 4096,
but its usable capacity `kDataSize` is strictly smaller, so `bytes_used`
never reaches `kCachePageSize`: a page reports full (`GetNextStackCapture`
returns null) before a full 1 MiB has been allocated from it. -/
theorem cachePage_capacity_spec :
    kCachePageSize = 1024 * 1024 ∧
    kCachePageSize % 4096 = 0 ∧
    kDataSize = kCachePageSize - sizeofCachePagePtr - sizeofSizeT ∧
    kDataSize < kCachePageSize ∧
    (∀ (p : CachePage) (m : Nat) (c : PageCapture) (p' : CachePage),
      p.GetNextStackCapture m = (some c, p') →
      p'.bytes_used ≤ kDataSize) ∧
    (∀ (p : CachePage) (m : Nat),
      kDataSize < p.bytes_used + stackCaptureSize m →
      (p.GetNextStackCapture m).1 = none) := by
  refine ⟨rfl, by decide, rfl, by decide, ?_, ?_⟩
  · intro p m c p' h
    unfold CachePage.GetNextStackCapture at h
    by_cases hfit : p.bytes_used + stackCaptureSize m ≤ kDataSize
    · rw [if_pos hfit] at h
      obtain ⟨-, hp'⟩ := Prod.mk.injEq .. ▸ h
      rw [← hp']
      exact hfit
    · rw [if_neg hfit] at h
      obtain ⟨hc, -⟩ := Prod.mk.injEq .. ▸ h
      simp at hc
  · intro p m h
    unfold CachePage.GetNextStackCapture
    rw [if_neg (by omega)]

/-- Witness for C10: a page with `kDataSize - 4` bytes used cannot allocate
even a zero-frame capture. -/
theorem cachePage_capacity_spec_witness :
    (CachePage.GetNextStackCapture { bytes_used := kDataSize - 4 } 0).1 =
      none ∧ kDataSize < kCachePageSize := by
  have h := cachePage_capacity_spec
  exact ⟨h.2.2.2.2.2 { bytes_used := kDataSize - 4 } 0 (by decide), h.2.2.2.1⟩

/-- Modelled from the spec: the saturation bound of a stack capture's
reference count (stack_capture.h is absent from the checkout; the count is
stored in a byte, saturating at 255). -/
def kMaxRefCount : Nat := 255

/-- A stack capture record: its committed frame sequence and its reference
count. -/
structure StackRecord where
  frames : List Nat
  ref_count : Nat
deriving DecidableEq

/-- Modelled from the spec: incrementing the saturating reference count. -/
def StackRecord.addRef (r : StackRecord) : StackRecord :=
  if r.ref_count < kMaxRefCount then
    { frames := r.frames, ref_count := r.ref_count + 1 }
  else r

/-- Modelled from the spec: decrementing the reference count; a saturated
count is never decremented (the record is never released). -/
def StackRecord.removeRef (r : StackRecord) : StackRecord :=
  if r.ref_count = kMaxRefCount then r
  else { frames := r.frames, ref_count := r.ref_count - 1 }

/-- The stack-capture cache: the configured maximum frame count and the set
of known stacks (record identity is the list index). -/
structure StackCaptureCache where
  max_num_frames : Nat
  known_stacks : List StackRecord
deriving DecidableEq

/-- Apply `f` to the record at index `idx`. -/
def modifyRecord (f : StackRecord → StackRecord) :
    List StackRecord → Nat → List StackRecord
  | [], _ => []
  | r :: t, 0 => f r :: t
  | r :: t, n + 1 => r :: modifyRecord f t n

/-- Modelled from the spec: `StackCaptureCache::SaveStackTrace` truncates the
frames to the configured maximum, looks up an equal existing capture — on a
hit it increments that record's saturating reference count and returns it; on
a miss it allocates a new record with reference count 1, inserts it into the
known set and returns it.  The returned `Nat` is the record's identity. -/
def SaveStackTrace (c : StackCaptureCache) (frames : List Nat) :
    Nat × StackCaptureCache :=
  let f := frames.take c.max_num_frames
  match c.known_stacks.findIdx? (fun r => decide (r.frames = f)) with
  | some idx =>
    (idx, { max_num_frames := c.max_num_frames,
            known_stacks := modifyRecord StackRecord.addRef c.known_stacks idx })
  | none =>
    (c.known_stacks.length,
      { max_num_frames := c.max_num_frames,
        known_stacks := c.known_stacks ++ [{ frames := f, ref_count := 1 }] })

/-- Modelled from the spec: `StackCaptureCache::ReleaseStackTrace` decrements
the referenced record's count (saturated counts are never decremented). -/
def ReleaseStackTrace (c : StackCaptureCache) (idx : Nat) : StackCaptureCache :=
  { max_num_frames := c.max_num_frames,
    known_stacks := modifyRecord StackRecord.removeRef c.known_stacks idx }

/-- An operation against the cache, for stating invariants over histories. -/
inductive CacheOp where
  | save (frames : List Nat)
  | release (idx : Nat)
deriving DecidableEq

/-- Run one cache operation. -/
def runOp (c : StackCaptureCache) : CacheOp → StackCaptureCache
  | CacheOp.save f => (SaveStackTrace c f).2
  | CacheOp.release i => ReleaseStackTrace c i

/-- Run a history of cache operations. -/
def runOps (c : StackCaptureCache) : List CacheOp → StackCaptureCache
  | [] => c
  | op :: t => runOps (runOp c op) t

theorem modifyRecord_getElem (f : StackRecord → StackRecord) :
    ∀ (l : List StackRecord) (i j : Nat),
      (modifyRecord f l i)[j]? =
        if i = j then (l[j]?).map f else l[j]? := by
  intro l
  induction l with
  | nil =>
    intro i j
    cases i <;> simp [modifyRecord]
  | cons r t ih =>
    intro i j
    cases i with
    | zero =>
      cases j with
      | zero => simp [modifyRecord]
      | succ j => simp [modifyRecord]
    | succ i =>
      cases j with
      | zero => simp [modifyRecord]
      | succ j =>
        simp only [modifyRecord, List.getElem?_cons_succ, ih]
        by_cases h : i = j
        · simp [h]
        · rw [if_neg h, if_neg (by omega)]

theorem modifyRecord_length (f : StackRecord → StackRecord) :
    ∀ (l : List StackRecord) (i : Nat),
      (modifyRecord f l i).length = l.length := by
  intro l
  induction l with
  | nil => intro i; cases i <;> simp [modifyRecord]
  | cons r t ih =>
    intro i
    cases i with
    | zero => simp [modifyRecord]
    | succ i => simp [modifyRecord, ih]

/-- C3: When no record with the given frame sequence exists, two successive
`SaveStackTrace` calls with equal frame sequences return one and the same
record — the second call adds no record and raises the reference count to 2;
one `ReleaseStackTrace` drops it to 1 with the record still present, and a
second release drops it to 0, leaving it eligible for reclaim. -/
theorem saveStackTrace_dedup_spec (c : StackCaptureCache) (frames : List Nat)
    (hnew : ∀ r ∈ c.known_stacks, r.frames ≠ frames.take c.max_num_frames) :
    ∀ i1 c1, SaveStackTrace c frames = (i1, c1) →
    ∀ i2 c2, SaveStackTrace c1 frames = (i2, c2) →
      i1 = c.known_stacks.length ∧
      i2 = i1 ∧
      c2.known_stacks.length = c1.known_stacks.length ∧
      c1.known_stacks[i1]? =
        some { frames := frames.take c.max_num_frames, ref_count := 1 } ∧
      c2.known_stacks[i1]? =
        some { frames := frames.take c.max_num_frames, ref_count := 2 } ∧
      (ReleaseStackTrace c2 i1).known_stacks[i1]? =
        some { frames := frames.take c.max_num_frames, ref_count := 1 } ∧
      (ReleaseStackTrace (ReleaseStackTrace c2 i1) i1).known_stacks[i1]? =
        some { frames := frames.take c.max_num_frames, ref_count := 0 } := by
  intro i1 c1 h1 i2 c2 h2
  have hfind1 : c.known_stacks.findIdx?
      (fun r => decide (r.frames = frames.take c.max_num_frames)) = none := by
    rw [List.findIdx?_eq_none_iff]
    intro r hr
    simp [hnew r hr]
  simp only [SaveStackTrace, hfind1] at h1
  obtain ⟨hi1, hc1⟩ := Prod.mk.injEq .. ▸ h1
  subst hc1
  subst hi1
  have hfind2 : (c.known_stacks ++
        [({ frames := frames.take c.max_num_frames, ref_count := 1 } :
          StackRecord)]).findIdx?
      (fun r => decide (r.frames = frames.take c.max_num_frames)) =
      some c.known_stacks.length := by
    rw [List.findIdx?_append, hfind1]
    simp
  simp only [SaveStackTrace, hfind2] at h2
  obtain ⟨hi2, hc2⟩ := Prod.mk.injEq .. ▸ h2
  subst hc2
  subst hi2
  have hget1 : (c.known_stacks ++
      [({ frames := frames.take c.max_num_frames, ref_count := 1 } :
        StackRecord)])[c.known_stacks.length]? =
      some { frames := frames.take c.max_num_frames, ref_count := 1 } :=
    List.getElem?_concat_length _ _
  have hget2 : (modifyRecord StackRecord.addRef
      (c.known_stacks ++
        [({ frames := frames.take c.max_num_frames, ref_count := 1 } :
          StackRecord)])
      c.known_stacks.length)[c.known_stacks.length]? =
      some { frames := frames.take c.max_num_frames, ref_count := 2 } := by
    rw [modifyRecord_getElem, if_pos rfl, hget1]
    simp only [Option.map_some']
    rw [StackRecord.addRef, if_pos (by norm_num [kMaxRefCount])]
  have hget3 : (modifyRecord StackRecord.removeRef
      (modifyRecord StackRecord.addRef
        (c.known_stacks ++
          [({ frames := frames.take c.max_num_frames, ref_count := 1 } :
            StackRecord)])
        c.known_stacks.length)
      c.known_stacks.length)[c.known_stacks.length]? =
      some { frames := frames.take c.max_num_frames, ref_count := 1 } := by
    rw [modifyRecord_getElem, if_pos rfl, hget2]
    simp only [Option.map_some']
    rw [StackRecord.removeRef, if_neg (by norm_num [kMaxRefCount])]
    rfl
  refine ⟨rfl, rfl, modifyRecord_length _ _ _, hget1, hget2, hget3, ?_⟩
  simp only [ReleaseStackTrace]
  rw [modifyRecord_getElem, if_pos rfl, hget3]
  simp only [Option.map_some']
  rw [StackRecord.removeRef, if_neg (by norm_num [kMaxRefCount])]
  rfl

/-- Witness for C3: saving `[10, 20]` twice into an empty cache configured
for up to 2 frames yields the same index with reference count 2; two
releases leave the record with count 0. -/
theorem saveStackTrace_dedup_spec_witness :
    (SaveStackTrace (SaveStackTrace
        { max_num_frames := 2, known_stacks := [] } [10, 20]).2 [10, 20]).1 =
      (SaveStackTrace
        { max_num_frames := 2, known_stacks := [] } [10, 20]).1 ∧
    (SaveStackTrace (SaveStackTrace
        { max_num_frames := 2, known_stacks := [] } [10, 20]).2
        [10, 20]).2.known_stacks[0]? =
      some { frames := [10, 20], ref_count := 2 } := by
  have h := saveStackTrace_dedup_spec
    { max_num_frames := 2, known_stacks := [] } [10, 20]
    (by intro r hr; simp at hr) _ _ rfl _ _ rfl
  exact ⟨h.2.1, h.2.2.2.2.1⟩

/-- C9: a record's reference count is saturating: a bounded count stays
bounded under `addRef`; a saturated record is unchanged by both `addRef` and
`removeRef`; and a saturated record survives any history of cache operations
unchanged — it is never decremented and never reclaimed. -/
theorem refCount_saturating_spec :
    (∀ r : StackRecord, r.ref_count ≤ kMaxRefCount →
      r.addRef.ref_count ≤ kMaxRefCount) ∧
    (∀ r : StackRecord, r.ref_count = kMaxRefCount →
      r.addRef = r ∧ r.removeRef = r) ∧
    (∀ (c : StackCaptureCache) (idx : Nat) (fr : List Nat) (ops : List CacheOp),
      c.known_stacks[idx]? = some { frames := fr, ref_count := kMaxRefCount } →
      (runOps c ops).known_stacks[idx]? =
        some { frames := fr, ref_count := kMaxRefCount }) := by
  have haddSat : ∀ r : StackRecord, r.ref_count = kMaxRefCount →
      r.addRef = r := by
    intro r hr
    rw [StackRecord.addRef, if_neg (by omega)]
  have hremSat : ∀ r : StackRecord, r.ref_count = kMaxRefCount →
      r.removeRef = r := by
    intro r hr
    rw [StackRecord.removeRef, if_pos hr]
  refine ⟨?_, fun r hr => ⟨haddSat r hr, hremSat r hr⟩, ?_⟩
  · intro r hr
    rw [StackRecord.addRef]
    by_cases h : r.ref_count < kMaxRefCount
    · rw [if_pos h]
      simpa using h
    · rw [if_neg h]
      exact hr
  · have hmod : ∀ (f : StackRecord → StackRecord)
        (hf : ∀ r : StackRecord, r.ref_count = kMaxRefCount → f r = r)
        (l : List StackRecord) (idx j : Nat) (fr : List Nat),
        l[idx]? = some { frames := fr, ref_count := kMaxRefCount } →
        (modifyRecord f l j)[idx]? =
          some { frames := fr, ref_count := kMaxRefCount } := by
      intro f hf l idx j fr h
      rw [modifyRecord_getElem]
      by_cases hj : j = idx
      · rw [if_pos hj, h]
        simp only [Option.map_some']
        rw [hf _ rfl]
      · rw [if_neg hj]
        exact h
    have hstep : ∀ (c : StackCaptureCache) (idx : Nat) (fr : List Nat)
        (op : CacheOp),
        c.known_stacks[idx]? =
          some { frames := fr, ref_count := kMaxRefCount } →
        (runOp c op).known_stacks[idx]? =
          some { frames := fr, ref_count := kMaxRefCount } := by
      intro c idx fr op h
      cases op with
      | save f =>
        simp only [runOp, SaveStackTrace]
        cases hfind : c.known_stacks.findIdx?
            (fun r => decide (r.frames = f.take c.max_num_frames)) with
        | some j =>
          simp only []
          exact hmod _ haddSat _ _ _ _ h
        | none =>
          simp only []
          have hlt : idx < c.known_stacks.length := by
            by_contra hge
            rw [List.getElem?_eq_none (by omega)] at h
            exact Option.noConfusion h
          rw [List.getElem?_append_left hlt]
          exact h
      | release j =>
        simp only [runOp, ReleaseStackTrace]
        exact hmod _ hremSat _ _ _ _ h
    intro c idx fr ops
    induction ops generalizing c with
    | nil => intro h; exact h
    | cons op t ih =>
      intro h
      exact ih (runOp c op) (hstep c idx fr op h)

/-- Witness for C9: a saturated record survives a release, a rehit save and
another release with its count still at the saturation bound. -/
theorem refCount_saturating_spec_witness :
    (runOps
        { max_num_frames := 4,
          known_stacks := [{ frames := [1], ref_count := kMaxRefCount }] }
        [CacheOp.release 0, CacheOp.save [1],
          CacheOp.release 0]).known_stacks[0]? =
      some { frames := [1], ref_count := kMaxRefCount } := by
  exact refCount_saturating_spec.2.2
    { max_num_frames := 4,
      known_stacks := [{ frames := [1], ref_count := kMaxRefCount }] }
    0 [1] [CacheOp.release 0, CacheOp.save [1], CacheOp.release 0] rfl

end Asan
